import Mathlib

/-!
Verification development for the D878UV codeplug engine of the qdmr
repository (header files `d878uv_codeplug.hh`, `application.hh`,
`lib/channel.hh`).

The repository sources available are C++ headers: they declare the data
model (abstract configuration entities, binary element classes, presence
bitmaps, the encode/decode/link entry points) and document the binary
layout in detail, while the member-function bodies live in `.cc` files
that are not part of the source tree here.  Consequently the operational
definitions below are modelled from the specification document and from
the layout documentation embedded in the headers; each such definition
carries a doc comment naming what is missing.  Byte-level detail is kept
wherever a verified claim depends on it (presence bitmaps, 16-bit
little-endian zone member lists, sentinel constants, the DMR-ID map),
and field-level granularity is used for the per-record element codecs.
-/

namespace D878UV

/-! ### Device table capacities and layout constants

Taken from the layout table in the class documentation of
`D878UVCodeplug` (src/unnamed/part_001, lines 41-213). -/

/-- Channel table capacity: 4000 channels. -/
def numChannelSlots : Nat := 4000

/-- Channels per bank: a bank holds up to 128 channels. -/
def channelBankSize : Nat := 128

/-- Contact table capacity: 10000 contacts. -/
def numContactSlots : Nat := 10000

/-- Zone table capacity: 250 zones. -/
def numZoneSlots : Nat := 250

/-- Member slots inside one zone channel list: 250 16-bit indices. -/
def zoneMemberCap : Nat := 250

/-- Group list table capacity: 250 group lists. -/
def numGroupListSlots : Nat := 250

/-- Contact member slots inside one group list (bounded reference list). -/
def groupListMemberCap : Nat := 64

/-- Scan list table capacity: 250 scan lists. -/
def numScanListSlots : Nat := 250

/-- Channel member slots inside one scan list (bounded reference list). -/
def scanListMemberCap : Nat := 16

/-- Roaming channel table capacity: 250 roaming channels. -/
def numRoamingChannelSlots : Nat := 250

/-- Roaming zone table capacity: 64 roaming zones. -/
def numRoamingZoneSlots : Nat := 64

/-- Member slots inside one roaming zone. -/
def roamingZoneMemberCap : Nat := 64

/-- Number of GPS/APRS systems: fixed count of 8. -/
def numGPSSystems : Nat := 8

/-- Sentinel for an unset 8-bit index field. -/
def sentinel8 : Nat := 0xff

/-- Sentinel for an unset 16-bit index field (zone member lists,
scan list members: `default/padded=0xffff`). -/
def sentinel16 : Nat := 0xffff

/-- Sentinel for an unset 32-bit index field (contact index list:
`default 0xffffffff`). -/
def sentinel32 : Nat := 0xffffffff

/-- Sentinel filling unused DMR-ID-map slots:
`empty entries set to 0xffffffffffffffff`. -/
def sentinel64 : Nat := 0xffffffffffffffff

/-- Pseudo-channel value for VFO A in a GPS system channel field
(`VFO A=4000`). -/
def pseudoVFOA : Nat := 4000

/-- Pseudo-channel value for VFO B (`VFO B=4001`). -/
def pseudoVFOB : Nat := 4001

/-- Pseudo-channel value for the current channel (`Current=4002`). -/
def pseudoCurrent : Nat := 4002

/-- Channel bitmap region: 0x200 bytes, of which 500 carry the 4000 bits. -/
def channelBitmapBitBytes : Nat := 500

/-- Padding bytes after the channel bitmap bits inside its 0x200 region. -/
def channelBitmapPadBytes : Nat := 12

/-- Contact bitmap region: 0x500 bytes, of which 1250 carry the 10000 bits. -/
def contactBitmapBitBytes : Nat := 1250

/-- Padding bytes after the contact bitmap bits inside its 0x500 region
(`default 0xff, 0x00 padded`). -/
def contactBitmapPadBytes : Nat := 30

/-! ### Generic byte and bit helpers -/

/-- Numeric value of one bit. -/
def bitVal (b : Bool) : Nat := if b then 1 else 0

/-- Value of a byte assembled from a little-endian list of bits
(bit 0 first). -/
def natOfBits : List Bool → Nat
  | [] => 0
  | b :: bs => bitVal b + 2 * natOfBits bs

theorem natOfBits_testBit (bs : List Bool) (k : Nat) :
    (natOfBits bs).testBit k = bs.getD k false := by
  induction bs generalizing k with
  | nil => simp [natOfBits, Nat.zero_testBit]
  | cons b bs ih =>
    cases k with
    | zero =>
      cases b
      · simp [natOfBits, bitVal, Nat.testBit_zero, Nat.add_mul_mod_self_left]
      · simp [natOfBits, bitVal, Nat.testBit_zero, Nat.add_mul_mod_self_left]
    | succ k =>
      have h2 : (bitVal b + 2 * natOfBits bs) / 2 = natOfBits bs := by
        cases b
        · simp [bitVal]
        · simp only [bitVal, if_pos]
          omega
      simp [natOfBits, Nat.testBit_add_one, h2, ih]

theorem natOfBits_replicate_true : natOfBits (List.replicate 8 true) = 255 := by
  decide

theorem natOfBits_replicate_false (n : Nat) :
    natOfBits (List.replicate n false) = 0 := by
  induction n with
  | zero => rfl
  | succ n ih => simp [List.replicate_succ, natOfBits, bitVal, ih]

/-- The byte at position `j` of a presence bitmap whose bit `i` (of the
whole map) has value `f i`. -/
def bitmapByte (f : Nat → Bool) (j : Nat) : Nat :=
  natOfBits ((List.range 8).map (fun i => f (8 * j + i)))

/-- A presence bitmap region: `bitBytes` bytes carrying the bits, then
`padBytes` bytes of 0x00 padding. -/
def bitmapRegion (bitBytes padBytes : Nat) (f : Nat → Bool) : List Nat :=
  (List.range bitBytes).map (bitmapByte f) ++ List.replicate padBytes 0

theorem bitmapByte_const_true (j : Nat) : bitmapByte (fun _ => true) j = 255 := by
  have h : (List.range 8).map (fun i => (fun _ : Nat => true) (8 * j + i))
      = List.replicate 8 true := by
    simp [List.eq_replicate_iff]
  rw [bitmapByte, h, natOfBits_replicate_true]

theorem bitmapByte_const_false (j : Nat) : bitmapByte (fun _ => false) j = 0 := by
  have h : (List.range 8).map (fun i => (fun _ : Nat => false) (8 * j + i))
      = List.replicate 8 false := by
    simp [List.eq_replicate_iff]
  rw [bitmapByte, h, natOfBits_replicate_false]

theorem bitmapByte_testBit (f : Nat → Bool) (j k : Nat) (hk : k < 8) :
    (bitmapByte f j).testBit k = f (8 * j + k) := by
  rw [bitmapByte, natOfBits_testBit]
  rw [List.getD_eq_getElem?_getD, List.getElem?_map, List.getElem?_range hk]
  rfl

theorem bitmapRegion_length (bitBytes padBytes : Nat) (f : Nat → Bool) :
    (bitmapRegion bitBytes padBytes f).length = bitBytes + padBytes := by
  simp [bitmapRegion]

theorem bitmapRegion_getElem_bits (bitBytes padBytes : Nat) (f : Nat → Bool)
    (j : Nat) (hj : j < bitBytes) (h : j < (bitmapRegion bitBytes padBytes f).length) :
    (bitmapRegion bitBytes padBytes f)[j] = bitmapByte f j := by
  simp only [bitmapRegion]
  rw [List.getElem_append_left (by simpa using hj)]
  simp

theorem bitmapRegion_getElem_pad (bitBytes padBytes : Nat) (f : Nat → Bool)
    (j : Nat) (hj1 : bitBytes ≤ j) (h : j < (bitmapRegion bitBytes padBytes f).length) :
    (bitmapRegion bitBytes padBytes f)[j] = 0 := by
  simp only [bitmapRegion]
  rw [List.getElem_append_right (by simpa using hj1)]
  simp

/-! ### Generic record-table codec

A record table of capacity `cap` is a list of `cap` slots, each either
populated with a record or empty.  Encoding a configuration packs the
abstract entities into the leading slots (the stable index-assignment
order of spec section 4.2: the Nth abstract entity occupies table slot
N); decoding walks the slots in index order and decodes every populated
one. -/

/-- Pack the encoded records into the first slots of a `cap`-slot table. -/
def tableEncode {α ρ : Type} (cap : Nat) (enc : α → ρ) (xs : List α) :
    List (Option ρ) :=
  xs.map (fun x => some (enc x)) ++ List.replicate (cap - xs.length) none

/-- Decode every populated slot of a table, in slot order. -/
def tableDecode {ρ β : Type} (dec : ρ → β) (slots : List (Option ρ)) : List β :=
  slots.filterMap (fun s => s.map dec)

theorem tableEncode_length {α ρ : Type} (cap : Nat) (enc : α → ρ) (xs : List α)
    (h : xs.length ≤ cap) : (tableEncode cap enc xs).length = cap := by
  simp [tableEncode]
  omega

theorem filterMap_map_none {ρ β : Type} (dec : ρ → β) (k : Nat) :
    (List.replicate k (none : Option ρ)).filterMap (fun s => s.map dec) = [] := by
  induction k with
  | zero => rfl
  | succ k ih => simp [List.replicate_succ, List.filterMap_cons, ih]

theorem tableDecode_tableEncode {α ρ β : Type} (cap : Nat) (enc : α → ρ)
    (dec : ρ → β) (xs : List α) :
    tableDecode dec (tableEncode cap enc xs) = xs.map (fun x => dec (enc x)) := by
  simp only [tableDecode, tableEncode, List.filterMap_append, filterMap_map_none,
    List.filterMap_map, List.append_nil]
  have h : (fun x => (some (enc x)).map dec) = fun x => some (dec (enc x)) := rfl
  rw [show ((fun s => Option.map dec s) ∘ fun x => some (enc x))
        = fun x => some (dec (enc x)) from rfl]
  exact List.filterMap_eq_map_iff_forall_eq_some.mpr (fun x _ => rfl) ▸ rfl

/-- Indices of the populated slots of a table, in ascending order,
starting the numbering at `i`.  This is the information the codeplug
context (`CodeplugContext`) retains of each table during one pass. -/
def populatedFrom {ρ : Type} : List (Option ρ) → Nat → List Nat
  | [], _ => []
  | some _ :: rest, i => i :: populatedFrom rest (i + 1)
  | none :: rest, i => populatedFrom rest (i + 1)

/-- Indices of the populated slots of a table, in ascending order. -/
def populatedIdx {ρ : Type} (slots : List (Option ρ)) : List Nat :=
  populatedFrom slots 0

theorem populatedFrom_replicate_none {ρ : Type} (k i : Nat) :
    populatedFrom (List.replicate k (none : Option ρ)) i = [] := by
  induction k generalizing i with
  | zero => rfl
  | succ k ih => simp [List.replicate_succ, populatedFrom, ih]

theorem populatedFrom_encode {α ρ : Type} (enc : α → ρ) (xs : List α)
    (k i : Nat) :
    populatedFrom (xs.map (fun x => some (enc x)) ++ List.replicate k none) i
      = List.range' i xs.length := by
  induction xs generalizing i with
  | nil => simp [populatedFrom_replicate_none]
  | cons x xs ih =>
    simp only [List.map_cons, List.cons_append, populatedFrom, List.append_eq,
      ih (i + 1), List.length_cons, List.range'_succ]

theorem populatedIdx_tableEncode {α ρ : Type} (cap : Nat) (enc : α → ρ)
    (xs : List α) :
    populatedIdx (tableEncode cap enc xs) = List.range xs.length := by
  simp only [populatedIdx, tableEncode, populatedFrom_encode]
  exact (List.range_eq_range' xs.length).symm

/-! ### Index resolution (the linking context)

`resolveIndex populated idx` resolves a raw table index against the list
of populated slot indices of the referenced table: it yields the
position of the referenced entity inside the decoded configuration list,
or `none` when the index is dangling.  This models the table-index to
abstract-entity mapping of the `CodeplugContext`. -/

/-- Resolve a raw table index to the position of the corresponding
decoded entity; `none` when no populated slot carries this index. -/
def resolveIndex : List Nat → Nat → Option Nat
  | [], _ => none
  | p :: ps, i => if p = i then some 0 else (resolveIndex ps i).map (· + 1)

theorem resolveIndex_range' (n : Nat) :
    ∀ (s i : Nat), resolveIndex (List.range' s n) i
      = if s ≤ i ∧ i < s + n then some (i - s) else none := by
  induction n with
  | zero =>
    intro s i
    rw [if_neg (by omega : ¬(s ≤ i ∧ i < s + 0))]
    rfl
  | succ n ih =>
    intro s i
    rw [List.range'_succ, resolveIndex]
    by_cases h : s = i
    · subst h
      have h2 : s ≤ s ∧ s < s + (n + 1) := by omega
      simp [h2]
    · rw [ih (s + 1) i]
      by_cases h3 : s + 1 ≤ i ∧ i < s + 1 + n
      · have h4 : s ≤ i ∧ i < s + (n + 1) := by omega
        have h5 : i - (s + 1) + 1 = i - s := by omega
        simp [h, h3, h4, h5]
      · have h4 : ¬(s ≤ i ∧ i < s + (n + 1)) := by omega
        simp [h, h3, h4]

theorem resolveIndex_range (n i : Nat) :
    resolveIndex (List.range n) i = if i < n then some i else none := by
  rw [List.range_eq_range', resolveIndex_range' n 0 i]
  by_cases h : i < n
  · have h2 : 0 ≤ i ∧ i < 0 + n := by omega
    simp [h, h2]
  · have h2 : ¬(0 ≤ i ∧ i < 0 + n) := by omega
    simp [h, h2]

/-! ### Fixed-width padded strings

Names are stored as fixed-length character fields, padded with a
per-kind fill character (spec section 4.1); decoding strips the trailing
padding. -/

/-- The NUL padding character of name fields. -/
def padChar : Char := Char.ofNat 0

/-- Pad a name to the fixed field width `n` (names longer than the field
cannot be represented and are outside the well-formed domain). -/
def padName (n : Nat) (s : List Char) : List Char :=
  s ++ List.replicate (n - s.length) padChar

/-- Strip the trailing padding of a fixed-width name field. -/
def stripName (l : List Char) : List Char :=
  (l.reverse.dropWhile (fun c => c = padChar)).reverse

theorem dropWhile_replicate_append (k : Nat) (t : List Char) :
    (List.replicate k padChar ++ t).dropWhile (fun c => c = padChar)
      = t.dropWhile (fun c => c = padChar) := by
  induction k with
  | zero => rfl
  | succ k ih => simp [List.replicate_succ, List.dropWhile_cons, ih]

theorem stripName_padName (n : Nat) (s : List Char) (h : padChar ∉ s) :
    stripName (padName n s) = s := by
  simp only [stripName, padName, List.reverse_append, List.reverse_replicate,
    dropWhile_replicate_append]
  have h2 : s.reverse.dropWhile (fun c => c = padChar) = s.reverse := by
    cases hs : s.reverse with
    | nil => rfl
    | cons c cs =>
      have hc : c ∈ s := by
        have : c ∈ s.reverse := by rw [hs]; exact List.mem_cons_self c cs
        simpa using this
      have hcp : ¬(c = padChar) := fun hh => h (hh ▸ hc)
      simp [List.dropWhile_cons, hcp]
  rw [h2, List.reverse_reverse]

theorem padName_length (n : Nat) (s : List Char) (h : s.length ≤ n) :
    (padName n s).length = n := by
  simp [padName]
  omega

/-! ### Bounded member lists with sentinel fill

Reference lists of bounded size (zone channel lists, scan list and group
list members, roaming zone members): absent slots hold the per-kind
sentinel value, never zero, so that a valid index 0 is distinguishable
(spec section 4.3). -/

/-- Encode a member list into `cap` slots, filling unused slots with the
sentinel. -/
def encodeMembers (cap sent : Nat) (ms : List Nat) : List Nat :=
  ms ++ List.replicate (cap - ms.length) sent

/-- Decode a member list of slots: every slot holding the sentinel is
absent, every other slot carries a member index. -/
def decodeMembers (sent : Nat) (slots : List Nat) : List Nat :=
  slots.filter (fun m => m ≠ sent)

theorem filter_ne_replicate_sent (sent k : Nat) :
    (List.replicate k sent).filter (fun m => m ≠ sent) = [] := by
  induction k with
  | zero => rfl
  | succ k ih => simp [List.replicate_succ, List.filter_cons, ih]

theorem decodeMembers_encodeMembers (cap sent : Nat) (ms : List Nat)
    (h : ∀ m ∈ ms, m ≠ sent) :
    decodeMembers sent (encodeMembers cap sent ms) = ms := by
  simp only [decodeMembers, encodeMembers, List.filter_append,
    filter_ne_replicate_sent, List.append_nil]
  exact List.filter_eq_self.mpr (fun m hm => by simpa using h m hm)

theorem encodeMembers_length (cap sent : Nat) (ms : List Nat)
    (h : ms.length ≤ cap) : (encodeMembers cap sent ms).length = cap := by
  simp [encodeMembers]
  omega

/-! ### 16-bit little-endian member lists (zone channel lists)

Zone channel lists are byte regions: `250 16bit indices each. 0-based,
little endian, default/padded=0xffff` (layout table, lines 62-64). -/

/-- Low and high byte of a 16-bit little-endian value. -/
def toLE16 (v : Nat) : List Nat := [v % 256, v / 256 % 256]

/-- Group a byte list into consecutive pairs. -/
def chunkPairs : List Nat → List (Nat × Nat)
  | a :: b :: rest => (a, b) :: chunkPairs rest
  | _ => []

/-- Value of a little-endian byte pair. -/
def ofLE16 (p : Nat × Nat) : Nat := p.1 + 256 * p.2

/-- Encode a zone channel list into its 500-byte region. -/
def encodeZoneListBytes (ms : List Nat) : List Nat :=
  (ms.map toLE16).flatten
    ++ List.replicate (2 * (zoneMemberCap - ms.length)) 0xff

/-- Decode a zone channel list region: read the 16-bit little-endian
values and keep those that are not the 0xffff fill. -/
def decodeZoneListBytes (bs : List Nat) : List Nat :=
  ((chunkPairs bs).map ofLE16).filter (fun v => v ≠ sentinel16)

theorem ofLE16_toLE16 (v : Nat) (h : v < 65536) :
    ofLE16 (v % 256, v / 256 % 256) = v := by
  simp only [ofLE16]
  have h2 : v / 256 < 256 := by omega
  rw [Nat.mod_eq_of_lt h2]
  omega

theorem chunkPairs_replicate_ff (k : Nat) :
    chunkPairs (List.replicate (2 * k) 0xff) = List.replicate k (0xff, 0xff) := by
  induction k with
  | zero => rfl
  | succ k ih =>
    have h : 2 * (k + 1) = (2 * k) + 1 + 1 := by omega
    rw [h, List.replicate_succ, List.replicate_succ, chunkPairs, ih,
      List.replicate_succ]

theorem chunkPairs_encode (ms : List Nat) (k : Nat) :
    chunkPairs ((ms.map toLE16).flatten ++ List.replicate (2 * k) 0xff)
      = ms.map (fun v => (v % 256, v / 256 % 256)) ++ List.replicate k (0xff, 0xff) := by
  induction ms with
  | nil => simp [chunkPairs_replicate_ff]
  | cons v ms ih =>
    simp only [List.map_cons, List.flatten_cons, toLE16, List.cons_append,
      List.append_assoc]
    rw [chunkPairs]
    simp only [List.nil_append, ih, List.map_cons]

theorem decodeZoneListBytes_encodeZoneListBytes (ms : List Nat)
    (h : ∀ m ∈ ms, m < 65535) :
    decodeZoneListBytes (encodeZoneListBytes ms) = ms := by
  simp only [decodeZoneListBytes, encodeZoneListBytes, chunkPairs_encode,
    List.map_append, List.map_map, List.filter_append]
  have hsent : (List.replicate (zoneMemberCap - ms.length) (0xff, 0xff)).map ofLE16
      = List.replicate (zoneMemberCap - ms.length) sentinel16 := by
    simp only [List.map_replicate]
    rfl
  rw [hsent, filter_ne_replicate_sent]
  have hmap : ms.map (ofLE16 ∘ fun v => (v % 256, v / 256 % 256)) = ms := by
    have h1 : ms.map (ofLE16 ∘ fun v => (v % 256, v / 256 % 256)) = ms.map id :=
      List.map_congr_left (fun v hv => ofLE16_toLE16 v (by have := h v hv; omega))
    rw [h1, List.map_id]
  rw [hmap, List.append_nil]
  refine List.filter_eq_self.mpr (fun v hv => ?_)
  have := h v hv
  simp [sentinel16]
  omega

theorem flatten_toLE16_length (ms : List Nat) :
    ((ms.map toLE16).flatten).length = 2 * ms.length := by
  induction ms with
  | nil => rfl
  | cons v ms ih =>
    simp only [List.map_cons, List.flatten_cons, List.length_append, ih,
      List.length_cons, toLE16]
    simp
    omega

theorem encodeZoneListBytes_length (ms : List Nat)
    (h : ms.length ≤ zoneMemberCap) :
    (encodeZoneListBytes ms).length = 2 * zoneMemberCap := by
  simp only [encodeZoneListBytes, List.length_append, List.length_replicate,
    flatten_toLE16_length]
  omega

/-! ### Abstract configuration graph

The portable entity graph (spec section 3) edited by the application:
`Channel` (analog or digital variant), `DigitalContact`, `Zone`,
`RXGroupList`, `ScanList`, `GPSSystem`, `RoamingChannel`, `RoamingZone`.
Following the design note of spec section 9, cross-entity references are
plain indices into the owning containers of the configuration graph
(`Option Nat`, `none` = explicitly unset); frequencies are carried in
10 Hz units, the resolution of the binary format, which makes the
sub-precision rounding of the device format a no-op here. -/

/-- Power setting of a channel (`Channel::Power` in lib/channel.hh). -/
inductive Power
  | high
  | low
deriving DecidableEq

/-- Admit criterion of a digital channel (`DigitalChannel::Admit`). -/
inductive DigitalAdmit
  | admitNone
  | admitFree
  | admitColorCode
deriving DecidableEq

/-- Fields specific to the digital (DMR) channel variant
(`DigitalChannel` in lib/channel.hh): color code, time slot and the
references to the RX group list, default TX contact and GPS system. -/
structure DigitalData where
  admitCrit : DigitalAdmit
  colorCode : Nat
  timeSlot2 : Bool
  rxGroupIndex : Option Nat
  txContactIndex : Option Nat
  gpsIndex : Option Nat
deriving DecidableEq

/-- The channel variant: digital vs. analog is a tag inside the common
record layout, not a separate table (spec section 4.3). -/
inductive ChannelKind
  | analog (squelch : Nat)
  | digital (d : DigitalData)
deriving DecidableEq

/-- An abstract channel (`Channel` in lib/channel.hh): name, RX/TX
frequency (10 Hz units), power, TX timeout, RX-only flag, the default
scan list reference and the variant data. -/
structure Channel where
  name : List Char
  rxFreq : Nat
  txFreq : Nat
  power : Power
  txTimeout : Nat
  rxOnly : Bool
  scanListIndex : Option Nat
  kind : ChannelKind
deriving DecidableEq

/-- An abstract digital contact: DMR ID (below 2^32) and group flag. -/
structure Contact where
  name : List Char
  id : Nat
  isGroup : Bool
deriving DecidableEq

/-- An abstract zone: a name and an ordered member list of channel
indices. -/
structure Zone where
  name : List Char
  members : List Nat
deriving DecidableEq

/-- An abstract RX group list: a name and its contact indices. -/
structure GroupList where
  name : List Char
  members : List Nat
deriving DecidableEq

/-- An abstract scan list: a name and its channel indices. -/
structure ScanList where
  name : List Char
  members : List Nat
deriving DecidableEq

/-- The channel a GPS/APRS system transmits on: an actual channel table
reference or one of the pseudo-channels VFO A, VFO B, current channel
(src/unnamed/part_001, lines 909-912). -/
inductive GPSChannel
  | fixed (idx : Nat)
  | vfoA
  | vfoB
  | current
deriving DecidableEq

/-- An abstract GPS/APRS system: the channel it reports on and the
destination contact ID. -/
structure GPSSystem where
  channel : GPSChannel
  contactId : Nat
deriving DecidableEq

/-- An abstract roaming channel: name, frequencies (Hz in the element,
10 Hz units here), color code and time slot. -/
structure RoamingChannel where
  name : List Char
  rxFreq : Nat
  txFreq : Nat
  colorCode : Nat
  timeSlot2 : Bool
deriving DecidableEq

/-- An abstract roaming zone: a name and its roaming channel indices. -/
structure RoamingZone where
  name : List Char
  members : List Nat
deriving DecidableEq

/-- The abstract configuration graph consumed and produced by the
engine. -/
structure Config where
  channels : List Channel
  contacts : List Contact
  zones : List Zone
  groupLists : List GroupList
  scanLists : List ScanList
  gpsSystems : List GPSSystem
  roamingChannels : List RoamingChannel
  roamingZones : List RoamingZone
deriving DecidableEq

/-- The behavioural flags of one encode pass (spec section 6); the
modelled flag gates the optional general-settings extension block. -/
structure Flags where
  settingsExtension : Bool
deriving DecidableEq

/-! ### Well-formedness of a configuration graph

Entity counts within the device table capacities (the hypothesis of the
round-trip property), every reference resolving to a live entity or
explicitly unset (the invariant of spec section 3), names within their
fixed-width fields and free of the padding character, and DMR IDs within
32 bits. -/

/-- Name fits its fixed-width field and contains no padding byte. -/
def NameOK (width : Nat) (s : List Char) : Prop :=
  s.length ≤ width ∧ padChar ∉ s

instance (width : Nat) (s : List Char) : Decidable (NameOK width s) := by
  unfold NameOK
  infer_instance

/-- A reference is explicitly unset or resolves inside its table. -/
def RefOK (r : Option Nat) (n : Nat) : Prop :=
  match r with
  | none => True
  | some i => i < n

instance (r : Option Nat) (n : Nat) : Decidable (RefOK r n) := by
  unfold RefOK
  cases r
  · exact inferInstanceAs (Decidable True)
  · exact inferInstanceAs (Decidable (_ < _))

/-- A GPS system channel reference is a pseudo-channel or resolves
inside the channel table. -/
def GPSChannelOK (ch : GPSChannel) (n : Nat) : Prop :=
  match ch with
  | GPSChannel.fixed i => i < n
  | _ => True

instance (ch : GPSChannel) (n : Nat) : Decidable (GPSChannelOK ch n) := by
  unfold GPSChannelOK
  cases ch
  · exact inferInstanceAs (Decidable (_ < _))
  · exact inferInstanceAs (Decidable True)
  · exact inferInstanceAs (Decidable True)
  · exact inferInstanceAs (Decidable True)

/-- Well-formedness of one channel relative to the table sizes of the
graph it lives in. -/
def Channel.WF (g : Config) (c : Channel) : Prop :=
  NameOK 16 c.name ∧
  RefOK c.scanListIndex g.scanLists.length ∧
  (match c.kind with
   | ChannelKind.analog _ => True
   | ChannelKind.digital d =>
     RefOK d.rxGroupIndex g.groupLists.length ∧
     RefOK d.txContactIndex g.contacts.length ∧
     RefOK d.gpsIndex g.gpsSystems.length)

/-- Well-formedness of the whole configuration graph. -/
def Config.WF (g : Config) : Prop :=
  g.channels.length ≤ numChannelSlots ∧
  g.contacts.length ≤ numContactSlots ∧
  g.zones.length ≤ numZoneSlots ∧
  g.groupLists.length ≤ numGroupListSlots ∧
  g.scanLists.length ≤ numScanListSlots ∧
  g.gpsSystems.length ≤ numGPSSystems ∧
  g.roamingChannels.length ≤ numRoamingChannelSlots ∧
  g.roamingZones.length ≤ numRoamingZoneSlots ∧
  (∀ c ∈ g.channels, c.WF g) ∧
  (∀ t ∈ g.contacts, NameOK 16 t.name ∧ t.id < 4294967296) ∧
  (∀ z ∈ g.zones, NameOK 16 z.name ∧ z.members.length ≤ zoneMemberCap ∧
    ∀ m ∈ z.members, m < g.channels.length) ∧
  (∀ l ∈ g.groupLists, NameOK 16 l.name ∧ l.members.length ≤ groupListMemberCap ∧
    ∀ m ∈ l.members, m < g.contacts.length) ∧
  (∀ l ∈ g.scanLists, NameOK 16 l.name ∧ l.members.length ≤ scanListMemberCap ∧
    ∀ m ∈ l.members, m < g.channels.length) ∧
  (∀ s ∈ g.gpsSystems, GPSChannelOK s.channel g.channels.length ∧
    s.contactId < 4294967296) ∧
  (∀ r ∈ g.roamingChannels, NameOK 16 r.name) ∧
  (∀ z ∈ g.roamingZones, NameOK 16 z.name ∧
    z.members.length ≤ roamingZoneMemberCap ∧
    ∀ m ∈ z.members, m < g.roamingChannels.length)

instance (g : Config) (c : Channel) : Decidable (c.WF g) := by
  unfold Channel.WF
  cases c.kind
  · simp only []
    infer_instance
  · simp only []
    infer_instance

instance (g : Config) : Decidable g.WF := by
  unfold Config.WF
  infer_instance

/-! ### Warnings, errors and the linking context -/

/-- Recoverable conditions collected during a pass (spec section 7). -/
inductive Warning
  | unresolvedReference
  | inconsistentPresenceMap
deriving DecidableEq

/-- Fatal decode errors (spec section 7). -/
inductive DecodeError
  | malformedRegion
deriving DecidableEq

/-- Transient per-pass state (`CodeplugContext`): for every record kind
the ascending list of populated table slots, which induces the mapping
between table indices and decoded-entity positions. -/
structure Context where
  channelIdx : List Nat
  contactIdx : List Nat
  groupListIdx : List Nat
  scanListIdx : List Nat
  gpsIdx : List Nat
  roamingChannelIdx : List Nat
deriving DecidableEq

/-- Encode an optional reference into a raw index field using the
per-kind unset sentinel. -/
def encodeRef (sent : Nat) : Option Nat → Nat
  | none => sent
  | some i => i

/-- Resolve one raw index field at link time: the sentinel decodes to
the explicitly unset reference; a dangling index yields an unset
reference together with an `unresolvedReference` warning (spec
section 4.3, `link`). -/
def linkRef (populated : List Nat) (sent raw : Nat) : Option Nat × List Warning :=
  if raw = sent then (none, [])
  else
    match resolveIndex populated raw with
    | some p => (some p, [])
    | none => (none, [Warning.unresolvedReference])

theorem linkRef_encodeRef_none (populated : List Nat) (sent : Nat) :
    linkRef populated sent (encodeRef sent none) = (none, []) := by
  simp [linkRef, encodeRef]

theorem linkRef_range_encodeRef (n sent : Nat) (r : Option Nat)
    (hr : RefOK r n) (hs : n ≤ sent) :
    linkRef (List.range n) sent (encodeRef sent r) = (r, []) := by
  cases r with
  | none => exact linkRef_encodeRef_none _ _
  | some i =>
    have hi : i < n := hr
    have hne : ¬(i = sent) := by omega
    simp [linkRef, encodeRef, hne, resolveIndex_range, hi]

theorem linkRef_dangling (populated : List Nat) (sent raw : Nat)
    (h1 : raw ≠ sent) (h2 : raw ∉ populated) :
    linkRef populated sent raw = (none, [Warning.unresolvedReference]) := by
  have hres : resolveIndex populated raw = none := by
    induction populated with
    | nil => rfl
    | cons p ps ih =>
      have hp : ¬(p = raw) := fun hh => h2 (hh ▸ List.mem_cons_self p ps)
      have hps : raw ∉ ps := fun hh => h2 (List.mem_cons_of_mem p hh)
      simp [resolveIndex, hp, ih hps]
  simp [linkRef, h1, hres]

/-- Link a whole member list: each raw index is resolved through the
context; an unresolvable member is dropped and reported. -/
def linkMemberList (populated : List Nat) (ms : List Nat) :
    List Nat × List Warning :=
  (ms.filterMap (resolveIndex populated),
   ms.filterMap (fun m =>
     if resolveIndex populated m = none then some Warning.unresolvedReference
     else none))

theorem linkMemberList_range (n : Nat) (ms : List Nat)
    (h : ∀ m ∈ ms, m < n) :
    linkMemberList (List.range n) ms = (ms, []) := by
  unfold linkMemberList
  refine Prod.ext ?_ ?_
  · show ms.filterMap (resolveIndex (List.range n)) = ms
    have h1 : ms.filterMap (resolveIndex (List.range n)) = ms.filterMap some := by
      refine List.filterMap_congr (fun m hm => ?_)
      rw [resolveIndex_range, if_pos (h m hm)]
    rw [h1, List.filterMap_some]
  · show ms.filterMap _ = []
    rw [List.filterMap_eq_nil_iff]
    intro m hm
    rw [resolveIndex_range, if_pos (h m hm)]
    simp

/-! ### Per-record element codecs

Each record kind implements `decode` (element to abstract object),
`link` (index references to object references) and `encode` (abstract
object to element); reserved sub-fields are written with fixed defaults
(spec section 4.3).  The bodies of the corresponding element member
functions (`toChannelObj`, `fromChannelObj`, `linkChannelObj`, the
contact, zone, group list, scan list and roaming codecs) live in the
missing `.cc` files; the definitions are modelled from the spec. -/

/-- Encoded power field. -/
def encodePower : Power → Nat
  | Power.high => 1
  | Power.low => 0

/-- Decoded power field. -/
def decodePower (v : Nat) : Power :=
  if v = 1 then Power.high else Power.low

/-- Encoded admit-criterion field of a digital channel. -/
def encodeAdmit : DigitalAdmit → Nat
  | DigitalAdmit.admitNone => 0
  | DigitalAdmit.admitFree => 1
  | DigitalAdmit.admitColorCode => 2

/-- Decoded admit-criterion field. -/
def decodeAdmit (v : Nat) : DigitalAdmit :=
  if v = 1 then DigitalAdmit.admitFree
  else if v = 2 then DigitalAdmit.admitColorCode
  else DigitalAdmit.admitNone

theorem decodePower_encodePower (p : Power) : decodePower (encodePower p) = p := by
  cases p
  · rfl
  · rfl

theorem decodeAdmit_encodeAdmit (a : DigitalAdmit) :
    decodeAdmit (encodeAdmit a) = a := by
  cases a
  · rfl
  · rfl
  · rfl

/-- The channel element (`D878UVCodeplug::ChannelElement`, 0x40 bytes),
at field granularity.  Modelled from the spec: the concrete bit layout
is declared in the missing `d868uv_codeplug.hh`/`.cc`; index reference
fields use the per-kind unset sentinels, `reserved` stands for the
reserved sub-fields that are always written with the fixed default 0. -/
structure ChannelRecord where
  name : List Char
  rxFreq : Nat
  txFreq : Nat
  power : Nat
  txTimeout : Nat
  rxOnly : Bool
  isDigital : Bool
  squelch : Nat
  admitCrit : Nat
  colorCode : Nat
  timeSlot2 : Bool
  scanListIndex : Nat
  groupListIndex : Nat
  contactIndex : Nat
  gpsIndex : Nat
  reserved : Nat
deriving DecidableEq

/-- Encode an abstract channel into its element
(`ChannelElement::fromChannelObj`).  Modelled from the spec: writes
every field, the per-kind sentinel for unset references and fixed
defaults for fields of the other variant and for reserved space. -/
def fromChannelObj (c : Channel) : ChannelRecord :=
  { name := padName 16 c.name
    rxFreq := c.rxFreq
    txFreq := c.txFreq
    power := encodePower c.power
    txTimeout := c.txTimeout
    rxOnly := c.rxOnly
    isDigital := match c.kind with
      | ChannelKind.analog _ => false
      | ChannelKind.digital _ => true
    squelch := match c.kind with
      | ChannelKind.analog sq => sq
      | ChannelKind.digital _ => 0
    admitCrit := match c.kind with
      | ChannelKind.analog _ => 0
      | ChannelKind.digital d => encodeAdmit d.admitCrit
    colorCode := match c.kind with
      | ChannelKind.analog _ => 0
      | ChannelKind.digital d => d.colorCode
    timeSlot2 := match c.kind with
      | ChannelKind.analog _ => false
      | ChannelKind.digital d => d.timeSlot2
    scanListIndex := encodeRef sentinel8 c.scanListIndex
    groupListIndex := match c.kind with
      | ChannelKind.analog _ => sentinel8
      | ChannelKind.digital d => encodeRef sentinel8 d.rxGroupIndex
    contactIndex := match c.kind with
      | ChannelKind.analog _ => sentinel16
      | ChannelKind.digital d => encodeRef sentinel16 d.txContactIndex
    gpsIndex := match c.kind with
      | ChannelKind.analog _ => sentinel8
      | ChannelKind.digital d => encodeRef sentinel8 d.gpsIndex
    reserved := 0 }

/-- Decode a channel element and resolve its references
(`ChannelElement::toChannelObj` followed by
`ChannelElement::linkChannelObj`).  Modelled from the spec: produces the
abstract channel, the link success flag and the collected warnings; a
dangling reference leaves the reference unset and is reported, never
fatal. -/
def linkChannelObj (ctx : Context) (r : ChannelRecord) :
    Channel × Bool × List Warning :=
  let sl := linkRef ctx.scanListIdx sentinel8 r.scanListIndex
  if r.isDigital then
    let gl := linkRef ctx.groupListIdx sentinel8 r.groupListIndex
    let ct := linkRef ctx.contactIdx sentinel16 r.contactIndex
    let gp := linkRef ctx.gpsIdx sentinel8 r.gpsIndex
    let ws := sl.2 ++ gl.2 ++ ct.2 ++ gp.2
    ({ name := stripName r.name
       rxFreq := r.rxFreq
       txFreq := r.txFreq
       power := decodePower r.power
       txTimeout := r.txTimeout
       rxOnly := r.rxOnly
       scanListIndex := sl.1
       kind := ChannelKind.digital
         { admitCrit := decodeAdmit r.admitCrit
           colorCode := r.colorCode
           timeSlot2 := r.timeSlot2
           rxGroupIndex := gl.1
           txContactIndex := ct.1
           gpsIndex := gp.1 } }, ws.isEmpty, ws)
  else
    ({ name := stripName r.name
       rxFreq := r.rxFreq
       txFreq := r.txFreq
       power := decodePower r.power
       txTimeout := r.txTimeout
       rxOnly := r.rxOnly
       scanListIndex := sl.1
       kind := ChannelKind.analog r.squelch }, sl.2.isEmpty, sl.2)

/-- The contact element (`D868UVCodeplug::contact_t`, 100 bytes), at
field granularity.  Modelled from the spec. -/
structure ContactRecord where
  name : List Char
  id : Nat
  isGroup : Bool
  reserved : Nat
deriving DecidableEq

/-- Encode an abstract contact into its element.  Modelled from the
spec. -/
def fromContactObj (t : Contact) : ContactRecord :=
  { name := padName 16 t.name, id := t.id, isGroup := t.isGroup, reserved := 0 }

/-- Decode a contact element.  Modelled from the spec. -/
def toContactObj (r : ContactRecord) : Contact :=
  { name := stripName r.name, id := r.id, isGroup := r.isGroup }

theorem toContactObj_fromContactObj (t : Contact) (h : NameOK 16 t.name) :
    toContactObj (fromContactObj t) = t := by
  simp [toContactObj, fromContactObj, stripName_padName 16 t.name h.2]

/-- The group list element (`D868UVCodeplug::grouplist_t`), at field
granularity: a name and 64 32-bit member slots, unset = 0xffffffff.
Modelled from the spec. -/
structure GroupListRecord where
  name : List Char
  members : List Nat
deriving DecidableEq

/-- Encode an abstract RX group list into its element.  Modelled from
the spec. -/
def fromGroupListObj (l : GroupList) : GroupListRecord :=
  { name := padName 16 l.name
    members := encodeMembers groupListMemberCap sentinel32 l.members }

/-- Decode a group list element and resolve its members.  Modelled from
the spec. -/
def linkGroupListObj (ctx : Context) (r : GroupListRecord) :
    GroupList × List Warning :=
  let lk := linkMemberList ctx.contactIdx (decodeMembers sentinel32 r.members)
  ({ name := stripName r.name, members := lk.1 }, lk.2)

/-- The scan list element (`D868UVCodeplug::scanlist_t`), at field
granularity: a name and 16-bit member slots, unset = 0xffff.  Modelled
from the spec. -/
structure ScanListRecord where
  name : List Char
  members : List Nat
deriving DecidableEq

/-- Encode an abstract scan list into its element.  Modelled from the
spec. -/
def fromScanListObj (l : ScanList) : ScanListRecord :=
  { name := padName 16 l.name
    members := encodeMembers scanListMemberCap sentinel16 l.members }

/-- Decode a scan list element and resolve its members.  Modelled from
the spec. -/
def linkScanListObj (ctx : Context) (r : ScanListRecord) :
    ScanList × List Warning :=
  let lk := linkMemberList ctx.channelIdx (decodeMembers sentinel16 r.members)
  ({ name := stripName r.name, members := lk.1 }, lk.2)

/-- The roaming channel element
(`D878UVCodeplug::RoamingChannelElement`, 0x20 bytes), at field
granularity.  Modelled from the spec. -/
structure RoamingChannelRecord where
  name : List Char
  rxFreq : Nat
  txFreq : Nat
  colorCode : Nat
  timeSlot2 : Bool
deriving DecidableEq

/-- Encode a roaming channel (`RoamingChannelElement::fromChannel`).
Modelled from the spec. -/
def fromRoamingChannelObj (r : RoamingChannel) : RoamingChannelRecord :=
  { name := padName 16 r.name
    rxFreq := r.rxFreq
    txFreq := r.txFreq
    colorCode := r.colorCode
    timeSlot2 := r.timeSlot2 }

/-- Decode a roaming channel element.  Modelled from the spec. -/
def toRoamingChannelObj (r : RoamingChannelRecord) : RoamingChannel :=
  { name := stripName r.name
    rxFreq := r.rxFreq
    txFreq := r.txFreq
    colorCode := r.colorCode
    timeSlot2 := r.timeSlot2 }

theorem toRoamingChannelObj_fromRoamingChannelObj (r : RoamingChannel)
    (h : NameOK 16 r.name) :
    toRoamingChannelObj (fromRoamingChannelObj r) = r := by
  simp [toRoamingChannelObj, fromRoamingChannelObj,
    stripName_padName 16 r.name h.2]

/-- The roaming zone element (`D878UVCodeplug::RoamingZoneElement`,
0x80 bytes), at field granularity: 64 8-bit member slots (unset = 0xff)
and a name.  Modelled from the spec. -/
structure RoamingZoneRecord where
  name : List Char
  members : List Nat
deriving DecidableEq

/-- Returns true if the n-th member slot of a roaming zone element is
set (`RoamingZoneElement::hasMember`): the slot does not hold the 0xff
sentinel.  Modelled from the spec. -/
def roamingZoneHasMember (r : RoamingZoneRecord) (n : Nat) : Bool :=
  r.members.getD n sentinel8 ≠ sentinel8

/-- The n-th member slot of a roaming zone element
(`RoamingZoneElement::member`).  Modelled from the spec. -/
def roamingZoneMember (r : RoamingZoneRecord) (n : Nat) : Nat :=
  r.members.getD n sentinel8

/-- Clear the n-th member slot (`RoamingZoneElement::clearMember`):
writes the 0xff sentinel.  Modelled from the spec. -/
def roamingZoneClearMember (r : RoamingZoneRecord) (n : Nat) : RoamingZoneRecord :=
  { r with members := r.members.set n sentinel8 }

/-- Encode a roaming zone (`RoamingZoneElement::fromRoamingZone`).
Modelled from the spec. -/
def fromRoamingZoneObj (z : RoamingZone) : RoamingZoneRecord :=
  { name := padName 16 z.name
    members := encodeMembers roamingZoneMemberCap sentinel8 z.members }

/-- Decode a roaming zone element and resolve its members
(`RoamingZoneElement::toRoamingZone` and `linkRoamingZone`).  Modelled
from the spec. -/
def linkRoamingZoneObj (ctx : Context) (r : RoamingZoneRecord) :
    RoamingZone × List Warning :=
  let lk := linkMemberList ctx.roamingChannelIdx (decodeMembers sentinel8 r.members)
  ({ name := stripName r.name, members := lk.1 }, lk.2)

/-- Encode the channel field of a GPS system
(`gps_systems_t::setChannelIndex` for an actual channel and the
pseudo-channel sentinels `VFO A=4000, VFO B=4001, Current=4002` for the
rest; src/unnamed/part_001 lines 909-912).  Modelled from the spec. -/
def encodeGPSChannelIndex : GPSChannel → Nat
  | GPSChannel.fixed i => i
  | GPSChannel.vfoA => pseudoVFOA
  | GPSChannel.vfoB => pseudoVFOB
  | GPSChannel.current => pseudoCurrent

/-- Resolve the channel field of a GPS system at link time
(`gps_systems_t::linkGPSSystem`): the pseudo-channel values 4000, 4001
and 4002 are special-cased and never looked up in the channel table;
only values below 4000 are resolved through the context.  Modelled from
the spec. -/
def linkGPSChannelIndex (populated : List Nat) (v : Nat) :
    Option GPSChannel × List Warning :=
  if v = pseudoVFOA then (some GPSChannel.vfoA, [])
  else if v = pseudoVFOB then (some GPSChannel.vfoB, [])
  else if v = pseudoCurrent then (some GPSChannel.current, [])
  else if v < 4000 then
    match resolveIndex populated v with
    | some p => (some (GPSChannel.fixed p), [])
    | none => (none, [Warning.unresolvedReference])
  else (none, [Warning.unresolvedReference])

/-- Decode one GPS system slot and resolve its channel
(`gps_systems_t::toGPSSystemObj` and `linkGPSSystem`).  Modelled from
the spec; an unresolvable channel leaves the reference at the
current-channel default and is reported. -/
def linkGPSSystemObj (ctx : Context) (chField idField : Nat) :
    GPSSystem × List Warning :=
  let lk := linkGPSChannelIndex ctx.channelIdx chField
  ({ channel := lk.1.getD GPSChannel.current, contactId := idField }, lk.2)

/-! ### The DMR-ID to contact-index map

Layout table lines 88-90: `DMR ID to contact index map ... Sorted by ID,
empty entries set to 0xffffffffffffffff`.  The map is rebuilt on every
encode (spec section 4.3, contacts): the (ID, contact index) pairs are
sorted by numeric ID, packed into the leading slots as 64-bit words and
the remaining slots are filled with the reserved sentinel.  Modelled
from the spec: the concrete `contact_map_t` lives in the missing
`d868uv_codeplug.hh`/`.cc`. -/

/-- Ordering of contact-map entries: by numeric DMR ID. -/
def contactMapLE (a b : Nat × Nat) : Prop := a.1 ≤ b.1

instance : DecidableRel contactMapLE :=
  fun a b => inferInstanceAs (Decidable (a.1 ≤ b.1))

instance : IsTotal (Nat × Nat) contactMapLE :=
  ⟨fun a b => Nat.le_total a.1 b.1⟩

instance : IsTrans (Nat × Nat) contactMapLE :=
  ⟨fun _ _ _ h1 h2 => Nat.le_trans h1 h2⟩

/-- The (DMR ID, contact table index) pairs of a contact list, indices
starting at `i`. -/
def idIndexPairs : List Contact → Nat → List (Nat × Nat)
  | [], _ => []
  | t :: ts, i => (t.id, i) :: idIndexPairs ts (i + 1)

/-- Pack one contact-map entry into its 64-bit little-endian word: the
32-bit ID in the low half, the 32-bit contact index in the high half. -/
def contactMapWord (p : Nat × Nat) : Nat := p.1 + 4294967296 * p.2

/-- Build the DMR-ID to contact-index map region for an encode pass:
active entries sorted ascending by ID in the leading slots, every
remaining slot holding the reserved 0xffffffffffffffff sentinel. -/
def contactIdMapOf (ts : List Contact) : List Nat :=
  ((List.insertionSort contactMapLE (idIndexPairs ts 0)).map contactMapWord)
    ++ List.replicate (numContactSlots - ts.length) sentinel64

theorem idIndexPairs_length (ts : List Contact) (i : Nat) :
    (idIndexPairs ts i).length = ts.length := by
  induction ts generalizing i with
  | nil => rfl
  | cons t ts ih => simp [idIndexPairs, ih]

theorem idIndexPairs_map_fst (ts : List Contact) (i : Nat) :
    (idIndexPairs ts i).map Prod.fst = ts.map Contact.id := by
  induction ts generalizing i with
  | nil => rfl
  | cons t ts ih => simp [idIndexPairs, ih]

theorem contactIdMapOf_length (ts : List Contact)
    (h : ts.length ≤ numContactSlots) :
    (contactIdMapOf ts).length = numContactSlots := by
  have hs : (List.insertionSort contactMapLE (idIndexPairs ts 0)).length
      = ts.length := by
    rw [(List.perm_insertionSort contactMapLE (idIndexPairs ts 0)).length_eq,
      idIndexPairs_length]
  simp only [contactIdMapOf, List.length_append, List.length_map, hs,
    List.length_replicate]
  omega

/-! ### Valid GPS system slots

The GPS systems block has no presence bitmap: a slot is valid when its
channel field is not the cleared 0xffff default
(`gps_systems_t::isValid`).  Modelled from the spec. -/

/-- Positions of the non-sentinel slots of a value list, numbering from
`i`. -/
def validFrom (sent : Nat) : List Nat → Nat → List Nat
  | [], _ => []
  | v :: rest, i =>
    if v = sent then validFrom sent rest (i + 1)
    else i :: validFrom sent rest (i + 1)

theorem validFrom_replicate (sent k i : Nat) :
    validFrom sent (List.replicate k sent) i = [] := by
  induction k generalizing i with
  | zero => rfl
  | succ k ih => simp [List.replicate_succ, validFrom, ih]

theorem validFrom_encode (sent : Nat) (vs : List Nat) (k i : Nat)
    (h : ∀ v ∈ vs, v ≠ sent) :
    validFrom sent (vs ++ List.replicate k sent) i = List.range' i vs.length := by
  induction vs generalizing i with
  | nil => simp [validFrom_replicate]
  | cons v vs ih =>
    have hv : ¬(v = sent) := h v (List.mem_cons_self v vs)
    simp only [List.cons_append, validFrom, List.length_cons, List.range'_succ,
      List.append_eq]
    rw [if_neg hv, ih (i + 1) (fun w hw => h w (List.mem_cons_of_mem v hw))]

/-! ### The memory image and the engine entry points

The image is the sparse device memory, partitioned into the named
regions of the layout table (src/unnamed/part_001, lines 41-213); each
region is carried at the granularity the verified claims need.  The
bodies of `D878UVCodeplug::setBitmaps`, `allocateChannels`,
`allocateForEncoding`, `encodeElements` and `decodeElements` are in the
missing `.cc` files; the definitions are modelled from the spec. -/

/-- The memory image produced by one encode pass. -/
structure Image where
  channelBitmap : List Nat
  channelSlots : List (Option ChannelRecord)
  allocatedBanks : List Nat
  channelShadow : List Nat
  zoneBitmap : List Nat
  zoneLists : List (Option (List Nat))
  zoneNames : List (Option (List Char))
  contactBitmap : List Nat
  contactSlots : List (Option ContactRecord)
  contactIndexList : List Nat
  contactIdMap : List Nat
  groupListBitmap : List Nat
  groupListSlots : List (Option GroupListRecord)
  scanListBitmap : List Nat
  scanListSlots : List (Option ScanListRecord)
  roamingChannelBitmap : List Nat
  roamingChannelSlots : List (Option RoamingChannelRecord)
  roamingZoneBitmap : List Nat
  roamingZoneSlots : List (Option RoamingZoneRecord)
  gpsChannels : List Nat
  gpsContactIds : List Nat
  settingsExt : Option (List Nat)
deriving DecidableEq

/-- Channel bitmap region (`setBitmaps`): 4000 bits, normal polarity
(1 = populated), default 0x00, 0x00 padded to 0x200 bytes. -/
def channelBitmapOf (n : Nat) : List Nat :=
  bitmapRegion channelBitmapBitBytes channelBitmapPadBytes (fun i => decide (i < n))

/-- Contact bitmap region (`setBitmaps`): 10000 bits, inverted polarity
(1 = absent), default 0xff, 0x00 padded to 0x500 bytes. -/
def contactBitmapOf (n : Nat) : List Nat :=
  bitmapRegion contactBitmapBitBytes contactBitmapPadBytes (fun i => !decide (i < n))

/-- Zone bitmap region: 250 bits, normal polarity, 0x20 bytes. -/
def zoneBitmapOf (n : Nat) : List Nat :=
  bitmapRegion 32 0 (fun i => decide (i < n))

/-- Group list bitmap region: 250 bits, normal polarity, 0x20 bytes. -/
def groupListBitmapOf (n : Nat) : List Nat :=
  bitmapRegion 32 0 (fun i => decide (i < n))

/-- Scan list bitmap region: 250 bits, normal polarity, 0x20 bytes. -/
def scanListBitmapOf (n : Nat) : List Nat :=
  bitmapRegion 32 0 (fun i => decide (i < n))

/-- Roaming channel bitmap region: 250 bits, normal polarity, 0x20
bytes. -/
def roamingChannelBitmapOf (n : Nat) : List Nat :=
  bitmapRegion 32 0 (fun i => decide (i < n))

/-- Roaming zone bitmap region: 64 bits, normal polarity, 0x10 bytes. -/
def roamingZoneBitmapOf (n : Nat) : List Nat :=
  bitmapRegion 16 0 (fun i => decide (i < n))

/-- The banks the channel allocation pass touches
(`D878UVCodeplug::allocateChannels`): walking the channel table, the
bank of every populated channel index is allocated (channel `i` lives in
bank `i / 128`).  Modelled from the spec. -/
def allocateChannels (populated : Nat → Bool) : List Nat :=
  (List.range numChannelSlots).filterMap
    (fun i => if populated i then some (i / channelBankSize) else none)

/-- Encode pass (`encode`, via `allocateForEncoding`, `setBitmaps` and
`encodeElements`): a pure function of the configuration graph and the
flags.  Modelled from the spec. -/
def encode (g : Config) (f : Flags) : Image :=
  { channelBitmap := channelBitmapOf g.channels.length
    channelSlots := tableEncode numChannelSlots fromChannelObj g.channels
    allocatedBanks := allocateChannels (fun i => decide (i < g.channels.length))
    channelShadow := List.replicate 64 0
    zoneBitmap := zoneBitmapOf g.zones.length
    zoneLists := tableEncode numZoneSlots (fun z => encodeZoneListBytes z.members)
      g.zones
    zoneNames := tableEncode numZoneSlots (fun z => padName 16 z.name) g.zones
    contactBitmap := contactBitmapOf g.contacts.length
    contactSlots := tableEncode numContactSlots fromContactObj g.contacts
    contactIndexList := encodeMembers numContactSlots sentinel32
      (List.range g.contacts.length)
    contactIdMap := contactIdMapOf g.contacts
    groupListBitmap := groupListBitmapOf g.groupLists.length
    groupListSlots := tableEncode numGroupListSlots fromGroupListObj g.groupLists
    scanListBitmap := scanListBitmapOf g.scanLists.length
    scanListSlots := tableEncode numScanListSlots fromScanListObj g.scanLists
    roamingChannelBitmap := roamingChannelBitmapOf g.roamingChannels.length
    roamingChannelSlots := tableEncode numRoamingChannelSlots
      fromRoamingChannelObj g.roamingChannels
    roamingZoneBitmap := roamingZoneBitmapOf g.roamingZones.length
    roamingZoneSlots := tableEncode numRoamingZoneSlots fromRoamingZoneObj
      g.roamingZones
    gpsChannels := g.gpsSystems.map (fun s => encodeGPSChannelIndex s.channel)
      ++ List.replicate (numGPSSystems - g.gpsSystems.length) sentinel16
    gpsContactIds := g.gpsSystems.map GPSSystem.contactId
      ++ List.replicate (numGPSSystems - g.gpsSystems.length) 0
    settingsExt := if f.settingsExtension then some (List.replicate 256 0)
      else none }

/-- Region size sanity of an image: every fixed-size region has its
documented size.  A violation is a fatal `MalformedRegion` (spec
section 7). -/
def Image.wellSized (img : Image) : Prop :=
  img.channelBitmap.length = 512 ∧
  img.channelSlots.length = numChannelSlots ∧
  img.zoneBitmap.length = 32 ∧
  img.zoneLists.length = numZoneSlots ∧
  img.zoneNames.length = numZoneSlots ∧
  img.contactBitmap.length = 1280 ∧
  img.contactSlots.length = numContactSlots ∧
  img.contactIndexList.length = numContactSlots ∧
  img.contactIdMap.length = numContactSlots ∧
  img.groupListBitmap.length = 32 ∧
  img.groupListSlots.length = numGroupListSlots ∧
  img.scanListBitmap.length = 32 ∧
  img.scanListSlots.length = numScanListSlots ∧
  img.roamingChannelBitmap.length = 32 ∧
  img.roamingChannelSlots.length = numRoamingChannelSlots ∧
  img.roamingZoneBitmap.length = 16 ∧
  img.roamingZoneSlots.length = numRoamingZoneSlots ∧
  img.gpsChannels.length = numGPSSystems ∧
  img.gpsContactIds.length = numGPSSystems

instance (img : Image) : Decidable img.wellSized := by
  unfold Image.wellSized
  infer_instance

/-- The linking context of a decode pass, read off the image. -/
def decodeContext (img : Image) : Context :=
  { channelIdx := populatedIdx img.channelSlots
    contactIdx := populatedIdx img.contactSlots
    groupListIdx := populatedIdx img.groupListSlots
    scanListIdx := populatedIdx img.scanListSlots
    gpsIdx := validFrom sentinel16 img.gpsChannels 0
    roamingChannelIdx := populatedIdx img.roamingChannelSlots }

/-- Decode one zone from its two unrelated regions (channel list and
name), correlated only by the shared zone index, and resolve the member
references.  Modelled from the spec. -/
def linkZoneObj (ctx : Context) (bs : List Nat) (nm : List Char) :
    Zone × List Warning :=
  let lk := linkMemberList ctx.channelIdx (decodeZoneListBytes bs)
  ({ name := stripName nm, members := lk.1 }, lk.2)

/-- The create-then-link body of a decode pass (`decodeElements` plus
the per-kind create/link passes): every populated slot is decoded in
slot order and every reference resolved through the context.  Modelled
from the spec. -/
def decodeBody (img : Image) : Config × List Warning :=
  let ctx := decodeContext img
  let chPairs := (tableDecode id img.channelSlots).map (linkChannelObj ctx)
  let zonePairs := (img.zoneLists.zip img.zoneNames).filterMap (fun p =>
    match p.1, p.2 with
    | some bs, some nm => some (linkZoneObj ctx bs nm)
    | _, _ => none)
  let glPairs := (tableDecode id img.groupListSlots).map (linkGroupListObj ctx)
  let slPairs := (tableDecode id img.scanListSlots).map (linkScanListObj ctx)
  let gpsPairs := ((img.gpsChannels.zip img.gpsContactIds).filter
    (fun p => p.1 ≠ sentinel16)).map (fun p => linkGPSSystemObj ctx p.1 p.2)
  let rzPairs := (tableDecode id img.roamingZoneSlots).map (linkRoamingZoneObj ctx)
  ({ channels := chPairs.map (fun p => p.1)
     contacts := (tableDecode id img.contactSlots).map toContactObj
     zones := zonePairs.map Prod.fst
     groupLists := glPairs.map Prod.fst
     scanLists := slPairs.map Prod.fst
     gpsSystems := gpsPairs.map Prod.fst
     roamingChannels := (tableDecode id img.roamingChannelSlots).map
       toRoamingChannelObj
     roamingZones := rzPairs.map Prod.fst },
   (chPairs.map (fun p => p.2.2)).flatten
     ++ (zonePairs.map Prod.snd).flatten
     ++ (glPairs.map Prod.snd).flatten
     ++ (slPairs.map Prod.snd).flatten
     ++ (gpsPairs.map Prod.snd).flatten
     ++ (rzPairs.map Prod.snd).flatten)

/-- Decode pass (`decode`): fails fatally only on a malformed region;
every recoverable condition is collected into the warnings list of the
best-effort result.  Modelled from the spec. -/
def decode (img : Image) (_f : Flags) :
    Except DecodeError (Config × List Warning) :=
  if img.wellSized then Except.ok (decodeBody img)
  else Except.error DecodeError.malformedRegion

/-! ### Round-trip lemmas -/

/-- The linking context of the image encoded from a well-formed graph:
slot index and entity position coincide for every kind. -/
def rangeContext (g : Config) : Context :=
  { channelIdx := List.range g.channels.length
    contactIdx := List.range g.contacts.length
    groupListIdx := List.range g.groupLists.length
    scanListIdx := List.range g.scanLists.length
    gpsIdx := List.range g.gpsSystems.length
    roamingChannelIdx := List.range g.roamingChannels.length }

theorem encodeGPSChannelIndex_ne_sentinel (g : Config) (h : g.WF)
    (s : GPSSystem) (hs : s ∈ g.gpsSystems) :
    encodeGPSChannelIndex s.channel ≠ sentinel16 := by
  have hwf := h.2.2.2.2.2.2.2.2.2.2.2.2.2.1 s hs
  have hch := h.1
  cases hc : s.channel with
  | fixed i =>
    have : i < g.channels.length := by
      have := hwf.1
      rw [hc] at this
      exact this
    simp only [encodeGPSChannelIndex, sentinel16]
    have h4 : g.channels.length ≤ 4000 := hch
    omega
  | vfoA => simp [encodeGPSChannelIndex, pseudoVFOA, sentinel16]
  | vfoB => simp [encodeGPSChannelIndex, pseudoVFOB, sentinel16]
  | current => simp [encodeGPSChannelIndex, pseudoCurrent, sentinel16]

theorem decodeContext_encode (g : Config) (f : Flags) (h : g.WF) :
    decodeContext (encode g f) = rangeContext g := by
  have hgps : validFrom sentinel16
      (g.gpsSystems.map (fun s => encodeGPSChannelIndex s.channel)
        ++ List.replicate (numGPSSystems - g.gpsSystems.length) sentinel16) 0
      = List.range g.gpsSystems.length := by
    rw [validFrom_encode sentinel16 _ _ 0 ?_]
    · simp [List.range_eq_range']
    · intro v hv
      obtain ⟨s, hs, rfl⟩ := List.mem_map.mp hv
      exact encodeGPSChannelIndex_ne_sentinel g h s hs
  simp only [decodeContext, encode, rangeContext, populatedIdx_tableEncode, hgps]

theorem linkChannelObj_fromChannelObj (g : Config) (c : Channel)
    (h : c.WF g) (hg : g.WF) :
    linkChannelObj (rangeContext g) (fromChannelObj c) = (c, true, []) := by
  obtain ⟨hname, hscan, hkind⟩ := h
  have hsl : linkRef (List.range g.scanLists.length) sentinel8
      (encodeRef sentinel8 c.scanListIndex) = (c.scanListIndex, []) := by
    refine linkRef_range_encodeRef _ _ _ hscan ?_
    have : g.scanLists.length ≤ numScanListSlots := hg.2.2.2.2.1
    simp only [numScanListSlots] at this
    simp only [sentinel8]
    omega
  cases hk : c.kind with
  | analog sq =>
    simp only [linkChannelObj, fromChannelObj, hk, rangeContext, hsl]
    simp only [stripName_padName 16 c.name hname.2, decodePower_encodePower]
    rw [show ChannelKind.analog sq = c.kind from hk.symm]
    simp
  | digital d =>
    rw [hk] at hkind
    obtain ⟨hgl, hct, hgp⟩ := hkind
    have hgl2 : linkRef (List.range g.groupLists.length) sentinel8
        (encodeRef sentinel8 d.rxGroupIndex) = (d.rxGroupIndex, []) := by
      refine linkRef_range_encodeRef _ _ _ hgl ?_
      have : g.groupLists.length ≤ numGroupListSlots := hg.2.2.2.1
      simp only [numGroupListSlots] at this
      simp only [sentinel8]
      omega
    have hct2 : linkRef (List.range g.contacts.length) sentinel16
        (encodeRef sentinel16 d.txContactIndex) = (d.txContactIndex, []) := by
      refine linkRef_range_encodeRef _ _ _ hct ?_
      have : g.contacts.length ≤ numContactSlots := hg.2.1
      simp only [numContactSlots] at this
      simp only [sentinel16]
      omega
    have hgp2 : linkRef (List.range g.gpsSystems.length) sentinel8
        (encodeRef sentinel8 d.gpsIndex) = (d.gpsIndex, []) := by
      refine linkRef_range_encodeRef _ _ _ hgp ?_
      have : g.gpsSystems.length ≤ numGPSSystems := hg.2.2.2.2.2.1
      simp only [numGPSSystems] at this
      simp only [sentinel8]
      omega
    simp only [linkChannelObj, fromChannelObj, hk, rangeContext, hsl, hgl2,
      hct2, hgp2]
    simp only [stripName_padName 16 c.name hname.2, decodePower_encodePower,
      decodeAdmit_encodeAdmit]
    have hd : DigitalData.mk d.admitCrit d.colorCode d.timeSlot2 d.rxGroupIndex
        d.txContactIndex d.gpsIndex = d := rfl
    rw [hd, show ChannelKind.digital d = c.kind from hk.symm]
    simp

theorem linkZoneObj_encode (g : Config) (z : Zone)
    (hname : NameOK 16 z.name) (hmem : ∀ m ∈ z.members, m < g.channels.length)
    (hg : g.WF) :
    linkZoneObj (rangeContext g) (encodeZoneListBytes z.members)
      (padName 16 z.name) = (z, []) := by
  have hch : g.channels.length ≤ 4000 := hg.1
  have hdec : decodeZoneListBytes (encodeZoneListBytes z.members) = z.members := by
    refine decodeZoneListBytes_encodeZoneListBytes z.members (fun m hm => ?_)
    have := hmem m hm
    omega
  simp only [linkZoneObj, rangeContext, hdec,
    linkMemberList_range g.channels.length z.members hmem]
  simp [stripName_padName 16 z.name hname.2]

theorem linkGroupListObj_encode (g : Config) (l : GroupList)
    (hname : NameOK 16 l.name) (hmem : ∀ m ∈ l.members, m < g.contacts.length)
    (hg : g.WF) :
    linkGroupListObj (rangeContext g) (fromGroupListObj l) = (l, []) := by
  have hct : g.contacts.length ≤ numContactSlots := hg.2.1
  have hdec : decodeMembers sentinel32
      (encodeMembers groupListMemberCap sentinel32 l.members) = l.members := by
    refine decodeMembers_encodeMembers _ _ _ (fun m hm => ?_)
    have := hmem m hm
    simp only [numContactSlots] at hct
    simp only [sentinel32]
    omega
  simp only [linkGroupListObj, fromGroupListObj, rangeContext, hdec,
    linkMemberList_range g.contacts.length l.members hmem]
  simp [stripName_padName 16 l.name hname.2]

theorem linkScanListObj_encode (g : Config) (l : ScanList)
    (hname : NameOK 16 l.name) (hmem : ∀ m ∈ l.members, m < g.channels.length)
    (hg : g.WF) :
    linkScanListObj (rangeContext g) (fromScanListObj l) = (l, []) := by
  have hch : g.channels.length ≤ 4000 := hg.1
  have hdec : decodeMembers sentinel16
      (encodeMembers scanListMemberCap sentinel16 l.members) = l.members := by
    refine decodeMembers_encodeMembers _ _ _ (fun m hm => ?_)
    have := hmem m hm
    simp only [sentinel16]
    omega
  simp only [linkScanListObj, fromScanListObj, rangeContext, hdec,
    linkMemberList_range g.channels.length l.members hmem]
  simp [stripName_padName 16 l.name hname.2]

theorem linkRoamingZoneObj_encode (g : Config) (z : RoamingZone)
    (hname : NameOK 16 z.name)
    (hmem : ∀ m ∈ z.members, m < g.roamingChannels.length) (hg : g.WF) :
    linkRoamingZoneObj (rangeContext g) (fromRoamingZoneObj z) = (z, []) := by
  have hrc : g.roamingChannels.length ≤ numRoamingChannelSlots := hg.2.2.2.2.2.2.1
  have hdec : decodeMembers sentinel8
      (encodeMembers roamingZoneMemberCap sentinel8 z.members) = z.members := by
    refine decodeMembers_encodeMembers _ _ _ (fun m hm => ?_)
    have := hmem m hm
    simp only [numRoamingChannelSlots] at hrc
    simp only [sentinel8]
    omega
  simp only [linkRoamingZoneObj, fromRoamingZoneObj, rangeContext, hdec,
    linkMemberList_range g.roamingChannels.length z.members hmem]
  simp [stripName_padName 16 z.name hname.2]

theorem linkGPSSystemObj_encode (g : Config) (s : GPSSystem)
    (hch : GPSChannelOK s.channel g.channels.length) (hg : g.WF) :
    linkGPSSystemObj (rangeContext g) (encodeGPSChannelIndex s.channel)
      s.contactId = (s, []) := by
  have h4 : g.channels.length ≤ 4000 := hg.1
  obtain ⟨ch, cid⟩ := s
  cases ch with
  | fixed i =>
    have hi : i < g.channels.length := hch
    have hlt : i < 4000 := by omega
    have hA : ¬(i = pseudoVFOA) := by simp only [pseudoVFOA]; omega
    have hB : ¬(i = pseudoVFOB) := by simp only [pseudoVFOB]; omega
    have hC : ¬(i = pseudoCurrent) := by simp only [pseudoCurrent]; omega
    show linkGPSSystemObj (rangeContext g) i cid = _
    simp only [linkGPSSystemObj, linkGPSChannelIndex, rangeContext,
      resolveIndex_range]
    rw [if_neg hA, if_neg hB, if_neg hC, if_pos hlt, if_pos hi]
    rfl
  | vfoA => rfl
  | vfoB => rfl
  | current => rfl

theorem flatten_map_nil {α β : Type} (l : List α) :
    (l.map (fun _ => ([] : List β))).flatten = [] := by
  induction l with
  | nil => rfl
  | cons x xs ih => simp [ih]

theorem filterMap_replicate_none2 {α β : Type} (f : α → Option β) (a : α)
    (h : f a = none) (k : Nat) : (List.replicate k a).filterMap f = [] := by
  induction k with
  | zero => rfl
  | succ k ih => simp [List.replicate_succ, List.filterMap_cons, h, ih]

theorem filter_replicate_false {α : Type} (p : α → Bool) (a : α)
    (h : p a = false) (k : Nat) : (List.replicate k a).filter p = [] := by
  induction k with
  | zero => rfl
  | succ k ih => simp [List.replicate_succ, List.filter_cons, h, ih]

theorem encode_wellSized (g : Config) (f : Flags) (h : g.WF) :
    (encode g f).wellSized := by
  obtain ⟨h1, h2, h3, h4, h5, h6, h7, h8, _⟩ := h
  refine ⟨?_, ?_, ?_, ?_, ?_, ?_, ?_, ?_, ?_, ?_, ?_, ?_, ?_, ?_, ?_, ?_, ?_,
    ?_, ?_⟩
  · show (bitmapRegion channelBitmapBitBytes channelBitmapPadBytes _).length = 512
    rw [bitmapRegion_length]
    decide
  · exact tableEncode_length _ _ _ h1
  · show (bitmapRegion 32 0 _).length = 32
    rw [bitmapRegion_length]
  · exact tableEncode_length _ _ _ h3
  · exact tableEncode_length _ _ _ h3
  · show (bitmapRegion contactBitmapBitBytes contactBitmapPadBytes _).length = 1280
    rw [bitmapRegion_length]
    decide
  · exact tableEncode_length _ _ _ h2
  · show (encodeMembers numContactSlots sentinel32
      (List.range g.contacts.length)).length = numContactSlots
    rw [encodeMembers_length]
    simpa using h2
  · exact contactIdMapOf_length _ h2
  · show (bitmapRegion 32 0 _).length = 32
    rw [bitmapRegion_length]
  · exact tableEncode_length _ _ _ h4
  · show (bitmapRegion 32 0 _).length = 32
    rw [bitmapRegion_length]
  · exact tableEncode_length _ _ _ h5
  · show (bitmapRegion 32 0 _).length = 32
    rw [bitmapRegion_length]
  · exact tableEncode_length _ _ _ h7
  · show (bitmapRegion 16 0 _).length = 16
    rw [bitmapRegion_length]
  · exact tableEncode_length _ _ _ h8
  · show (g.gpsSystems.map (fun s => encodeGPSChannelIndex s.channel)
      ++ List.replicate (numGPSSystems - g.gpsSystems.length) sentinel16).length
      = numGPSSystems
    simp only [List.length_append, List.length_map, List.length_replicate]
    simp only [numGPSSystems] at h6
    simp only [numGPSSystems]
    omega
  · show (g.gpsSystems.map GPSSystem.contactId
      ++ List.replicate (numGPSSystems - g.gpsSystems.length) 0).length
      = numGPSSystems
    simp only [List.length_append, List.length_map, List.length_replicate]
    simp only [numGPSSystems] at h6
    simp only [numGPSSystems]
    omega

theorem decodeChannels_encode (g : Config) (h : g.WF) :
    (tableDecode id (tableEncode numChannelSlots fromChannelObj
      g.channels)).map (linkChannelObj (rangeContext g))
      = g.channels.map (fun c => (c, true, ([] : List Warning))) := by
  rw [tableDecode_tableEncode, List.map_map]
  refine List.map_congr_left (fun c hc => ?_)
  exact linkChannelObj_fromChannelObj g c (h.2.2.2.2.2.2.2.2.1 c hc) h

theorem decodeContacts_encode (g : Config) (h : g.WF) :
    (tableDecode id (tableEncode numContactSlots fromContactObj
      g.contacts)).map toContactObj = g.contacts := by
  rw [tableDecode_tableEncode, List.map_map]
  have h1 : g.contacts.map (toContactObj ∘ fun x => id (fromContactObj x))
      = g.contacts.map id := by
    refine List.map_congr_left (fun t ht => ?_)
    exact toContactObj_fromContactObj t (h.2.2.2.2.2.2.2.2.2.1 t ht).1
  rw [h1, List.map_id]

theorem decodeGroupLists_encode (g : Config) (h : g.WF) :
    (tableDecode id (tableEncode numGroupListSlots fromGroupListObj
      g.groupLists)).map (linkGroupListObj (rangeContext g))
      = g.groupLists.map (fun l => (l, ([] : List Warning))) := by
  rw [tableDecode_tableEncode, List.map_map]
  refine List.map_congr_left (fun l hl => ?_)
  have hwf := h.2.2.2.2.2.2.2.2.2.2.2.1 l hl
  exact linkGroupListObj_encode g l hwf.1 hwf.2.2 h

theorem decodeScanLists_encode (g : Config) (h : g.WF) :
    (tableDecode id (tableEncode numScanListSlots fromScanListObj
      g.scanLists)).map (linkScanListObj (rangeContext g))
      = g.scanLists.map (fun l => (l, ([] : List Warning))) := by
  rw [tableDecode_tableEncode, List.map_map]
  refine List.map_congr_left (fun l hl => ?_)
  have hwf := h.2.2.2.2.2.2.2.2.2.2.2.2.1 l hl
  exact linkScanListObj_encode g l hwf.1 hwf.2.2 h

theorem decodeRoamingChannels_encode (g : Config) (h : g.WF) :
    (tableDecode id (tableEncode numRoamingChannelSlots fromRoamingChannelObj
      g.roamingChannels)).map toRoamingChannelObj = g.roamingChannels := by
  rw [tableDecode_tableEncode, List.map_map]
  have h1 : g.roamingChannels.map
      (toRoamingChannelObj ∘ fun x => id (fromRoamingChannelObj x))
      = g.roamingChannels.map id := by
    refine List.map_congr_left (fun r hr => ?_)
    exact toRoamingChannelObj_fromRoamingChannelObj r
      (h.2.2.2.2.2.2.2.2.2.2.2.2.2.2.1 r hr)
  rw [h1, List.map_id]

theorem decodeRoamingZones_encode (g : Config) (h : g.WF) :
    (tableDecode id (tableEncode numRoamingZoneSlots fromRoamingZoneObj
      g.roamingZones)).map (linkRoamingZoneObj (rangeContext g))
      = g.roamingZones.map (fun z => (z, ([] : List Warning))) := by
  rw [tableDecode_tableEncode, List.map_map]
  refine List.map_congr_left (fun z hz => ?_)
  have hwf := h.2.2.2.2.2.2.2.2.2.2.2.2.2.2.2 z hz
  exact linkRoamingZoneObj_encode g z hwf.1 hwf.2.2 h

theorem decodeZones_encode (g : Config) (h : g.WF) :
    ((tableEncode numZoneSlots (fun z => encodeZoneListBytes z.members)
        g.zones).zip
      (tableEncode numZoneSlots (fun z => padName 16 z.name) g.zones)).filterMap
      (fun p =>
        match p.1, p.2 with
        | some bs, some nm => some (linkZoneObj (rangeContext g) bs nm)
        | _, _ => none)
      = g.zones.map (fun z => (z, ([] : List Warning))) := by
  have hzip : (tableEncode numZoneSlots (fun z => encodeZoneListBytes z.members)
        g.zones).zip
      (tableEncode numZoneSlots (fun z => padName 16 z.name) g.zones)
      = g.zones.map (fun z => (some (encodeZoneListBytes z.members),
          some (padName 16 z.name)))
        ++ List.replicate (numZoneSlots - g.zones.length)
          ((none : Option (List Nat)), (none : Option (List Char))) := by
    unfold tableEncode
    rw [List.zip_append (by simp), List.zip_map', List.zip_replicate']
  rw [hzip, List.filterMap_append, List.filterMap_map,
    filterMap_replicate_none2 _ _ rfl, List.append_nil]
  refine List.filterMap_eq_map_iff_forall_eq_some.mpr (fun z hz => ?_)
  have hwf := h.2.2.2.2.2.2.2.2.2.2.1 z hz
  exact congrArg some (linkZoneObj_encode g z hwf.1 hwf.2.2 h)

theorem decodeGPS_encode (g : Config) (h : g.WF) :
    (((g.gpsSystems.map (fun s => encodeGPSChannelIndex s.channel)
        ++ List.replicate (numGPSSystems - g.gpsSystems.length) sentinel16).zip
      (g.gpsSystems.map GPSSystem.contactId
        ++ List.replicate (numGPSSystems - g.gpsSystems.length) 0)).filter
      (fun p => p.1 ≠ sentinel16)).map
      (fun p => linkGPSSystemObj (rangeContext g) p.1 p.2)
      = g.gpsSystems.map (fun s => (s, ([] : List Warning))) := by
  rw [List.zip_append (by simp), List.zip_map', List.zip_replicate',
    List.filter_append]
  rw [filter_replicate_false _ _ (by simp) _, List.append_nil]
  have h1 : (g.gpsSystems.map (fun s => (encodeGPSChannelIndex s.channel,
      s.contactId))).filter (fun p => p.1 ≠ sentinel16)
      = g.gpsSystems.map (fun s => (encodeGPSChannelIndex s.channel,
        s.contactId)) := by
    refine List.filter_eq_self.mpr (fun p hp => ?_)
    obtain ⟨s, hs, rfl⟩ := List.mem_map.mp hp
    simpa using encodeGPSChannelIndex_ne_sentinel g h s hs
  rw [h1, List.map_map]
  refine List.map_congr_left (fun s hs => ?_)
  have hwf := h.2.2.2.2.2.2.2.2.2.2.2.2.2.1 s hs
  exact linkGPSSystemObj_encode g s hwf.1 h

theorem proj1_triple (xs : List Channel) :
    (xs.map (fun c => (c, true, ([] : List Warning)))).map (fun p => p.1) = xs := by
  induction xs with
  | nil => rfl
  | cons x xs ih => simp [ih]

theorem warnings_triple_flatten (xs : List Channel) :
    ((xs.map (fun c => (c, true, ([] : List Warning)))).map
      (fun p => p.2.2)).flatten = [] := by
  induction xs with
  | nil => rfl
  | cons x xs ih => simp [ih]

theorem map_fst_pair_nil {α : Type} (xs : List α) :
    (xs.map (fun x => (x, ([] : List Warning)))).map Prod.fst = xs := by
  induction xs with
  | nil => rfl
  | cons x xs ih => simp [ih]

theorem warnings_pair_flatten {α : Type} (xs : List α) :
    ((xs.map (fun x => (x, ([] : List Warning)))).map Prod.snd).flatten = [] := by
  induction xs with
  | nil => rfl
  | cons x xs ih => simp [ih]

theorem map_fst_comp_pair_nil {α : Type} (xs : List α) :
    xs.map (Prod.fst ∘ fun x => (x, ([] : List Warning))) = xs := by
  induction xs with
  | nil => rfl
  | cons x xs ih => simp [ih]

theorem decodeBody_encode (g : Config) (f : Flags) (h : g.WF) :
    decodeBody (encode g f) = (g, []) := by
  unfold decodeBody
  rw [decodeContext_encode g f h]
  simp only [encode]
  rw [decodeChannels_encode g h, decodeContacts_encode g h,
    decodeZones_encode g h, decodeGroupLists_encode g h,
    decodeScanLists_encode g h, decodeGPS_encode g h,
    decodeRoamingChannels_encode g h, decodeRoamingZones_encode g h]
  rw [proj1_triple, warnings_triple_flatten, map_fst_pair_nil,
    warnings_pair_flatten]
  simp [map_fst_pair_nil, warnings_pair_flatten, map_fst_comp_pair_nil]

theorem decode_encode_ok (g : Config) (f : Flags) (h : g.WF) :
    decode (encode g f) f = Except.ok (g, []) := by
  unfold decode
  rw [if_pos (encode_wellSized g f h), decodeBody_encode g f h]

/-! ### Presence map bit operations

The per-kind polarity of the presence maps (spec section 4.2): `isSet`,
`set` and `clear` consult the fixed per-kind polarity; on an inverted
map a stored bit of 1 marks the slot as absent.  Modelled from the spec
(the member functions live in the missing `.cc` files). -/

/-- Is slot `i` populated according to a presence bitmap with the given
polarity? -/
def presenceIsSet (inverted : Bool) (bytes : List Nat) (i : Nat) : Bool :=
  ((bytes.getD (i / 8) 0).testBit (i % 8)).xor inverted

/-- Rewrite one bit of a byte region (helper of `set`/`clear`):
byte `i / 8` is rebuilt with bit `i % 8` replaced by `v`. -/
def writeBit (bytes : List Nat) (i : Nat) (v : Bool) : List Nat :=
  bytes.set (i / 8)
    (natOfBits ((List.range 8).map
      (fun k => if k = i % 8 then v else (bytes.getD (i / 8) 0).testBit k)))

/-- Mark slot `i` populated, honouring the polarity. -/
def presenceSet (inverted : Bool) (bytes : List Nat) (i : Nat) : List Nat :=
  writeBit bytes i (!inverted)

/-- Mark slot `i` absent, honouring the polarity. -/
def presenceClear (inverted : Bool) (bytes : List Nat) (i : Nat) : List Nat :=
  writeBit bytes i inverted

theorem writeBit_testBit (bytes : List Nat) (i : Nat) (v : Bool)
    (h : i / 8 < bytes.length) :
    ((writeBit bytes i v).getD (i / 8) 0).testBit (i % 8) = v := by
  have hset : (writeBit bytes i v).getD (i / 8) 0
      = natOfBits ((List.range 8).map
        (fun k => if k = i % 8 then v else (bytes.getD (i / 8) 0).testBit k)) := by
    simp only [writeBit, List.getD_eq_getElem?_getD, List.getElem?_set_self,
      List.length_set]
    rw [List.getElem?_eq_getElem (by simpa using h)]
    simp [List.getElem_set_self]
  rw [hset, natOfBits_testBit]
  have hm : i % 8 < 8 := Nat.mod_lt i (by omega)
  rw [List.getD_eq_getElem?_getD, List.getElem?_map, List.getElem?_range hm]
  simp

theorem presenceIsSet_presenceSet (inverted : Bool) (bytes : List Nat) (i : Nat)
    (h : i / 8 < bytes.length) :
    presenceIsSet inverted (presenceSet inverted bytes i) i = true := by
  rw [presenceIsSet, presenceSet, writeBit_testBit bytes i (!inverted) h]
  cases inverted
  · rfl
  · rfl

theorem presenceIsSet_presenceClear (inverted : Bool) (bytes : List Nat) (i : Nat)
    (h : i / 8 < bytes.length) :
    presenceIsSet inverted (presenceClear inverted bytes i) i = false := by
  rw [presenceIsSet, presenceClear, writeBit_testBit bytes i inverted h]
  cases inverted
  · rfl
  · rfl

theorem bitmapRegion_testBit (bb pb : Nat) (f : Nat → Bool) (i : Nat)
    (hi : i < 8 * bb) :
    ((bitmapRegion bb pb f).getD (i / 8) 0).testBit (i % 8) = f i := by
  have h1 : i / 8 < bb := by omega
  have h2 : i / 8 < (bitmapRegion bb pb f).length := by
    rw [bitmapRegion_length]
    omega
  rw [List.getD_eq_getElem?_getD, List.getElem?_eq_getElem h2]
  rw [Option.getD_some, bitmapRegion_getElem_bits bb pb f (i / 8) h1 h2]
  rw [bitmapByte_testBit f (i / 8) (i % 8) (Nat.mod_lt i (by omega))]
  rw [Nat.div_add_mod i 8]

theorem presenceIsSet_channelBitmapOf (n i : Nat) (hi : i < 4000) :
    presenceIsSet false (channelBitmapOf n) i = decide (i < n) := by
  rw [presenceIsSet, channelBitmapOf, bitmapRegion_testBit]
  · cases h : decide (i < n)
    · rfl
    · rfl
  · simp only [channelBitmapBitBytes]
    omega

theorem presenceIsSet_contactBitmapOf (n i : Nat) (hi : i < 10000) :
    presenceIsSet true (contactBitmapOf n) i = decide (i < n) := by
  rw [presenceIsSet, contactBitmapOf, bitmapRegion_testBit]
  · cases h : decide (i < n)
    · rfl
    · rfl
  · simp only [contactBitmapBitBytes]
    omega

/-! ### Deletion of referenced entities

The configuration graph clears references to a deleted entity
(`Channel::onScanListDeleted`, `DigitalChannel::onRxGroupDeleted`,
`onTxContactDeleted`, `onGPSSystemDeleted` in lib/channel.hh).  In the
arena model of spec section 9 a removal rewrites or nulls out dependent
handles explicitly: a reference to the deleted index becomes unset, a
reference past it shifts down by one.  Modelled from the spec (the slot
bodies live in the missing channel.cc). -/

/-- Rewrite one reference after entry `k` of the referenced table is
removed: a reference to `k` is reset to unset, references behind `k`
shift down. -/
def remapRef (k : Nat) : Option Nat → Option Nat
  | none => none
  | some j => if j = k then none else if k < j then some (j - 1) else some j

/-- Delete scan list `k`: every channel holding it gets its default
scan list reset (`Channel::onScanListDeleted`). -/
def Config.deleteScanList (g : Config) (k : Nat) : Config :=
  { g with
    scanLists := g.scanLists.eraseIdx k
    channels := g.channels.map
      (fun c => { c with scanListIndex := remapRef k c.scanListIndex }) }

/-- Apply a transformation to the digital variant data of a channel. -/
def mapDigital (t : DigitalData → DigitalData) (c : Channel) : Channel :=
  { c with kind := match c.kind with
    | ChannelKind.digital d => ChannelKind.digital (t d)
    | k => k }

/-- Delete RX group list `k` (`DigitalChannel::onRxGroupDeleted`). -/
def Config.deleteGroupList (g : Config) (k : Nat) : Config :=
  { g with
    groupLists := g.groupLists.eraseIdx k
    channels := g.channels.map
      (mapDigital (fun d => { d with rxGroupIndex := remapRef k d.rxGroupIndex })) }

/-- Delete contact `k` (`DigitalChannel::onTxContactDeleted`); group
list member lists are rewritten as well. -/
def Config.deleteContact (g : Config) (k : Nat) : Config :=
  { g with
    contacts := g.contacts.eraseIdx k
    channels := g.channels.map
      (mapDigital (fun d => { d with txContactIndex := remapRef k d.txContactIndex }))
    groupLists := g.groupLists.map (fun l =>
      { l with
        members := l.members.filterMap (fun m => remapRef k (some m)) }) }

/-- Delete GPS system `k` (`DigitalChannel::onGPSSystemDeleted`). -/
def Config.deleteGPSSystem (g : Config) (k : Nat) : Config :=
  { g with
    gpsSystems := g.gpsSystems.eraseIdx k
    channels := g.channels.map
      (mapDigital (fun d => { d with gpsIndex := remapRef k d.gpsIndex })) }

/-- The reference part of the channel invariant for one channel: every
reference the channel holds resolves inside its table or is explicitly
unset. -/
def Channel.RefsOK (g : Config) (c : Channel) : Prop :=
  RefOK c.scanListIndex g.scanLists.length ∧
  (match c.kind with
   | ChannelKind.analog _ => True
   | ChannelKind.digital d =>
     RefOK d.rxGroupIndex g.groupLists.length ∧
     RefOK d.txContactIndex g.contacts.length ∧
     RefOK d.gpsIndex g.gpsSystems.length)

instance (g : Config) (c : Channel) : Decidable (c.RefsOK g) := by
  unfold Channel.RefsOK
  cases c.kind
  · simp only []
    infer_instance
  · simp only []
    infer_instance

/-- The reference part of the channel invariant, for the whole graph. -/
def Config.ChannelRefsOK (g : Config) : Prop :=
  ∀ c ∈ g.channels, c.RefsOK g

instance (g : Config) : Decidable g.ChannelRefsOK := by
  unfold Config.ChannelRefsOK
  infer_instance

theorem remapRef_eraseIdx_refOK {α : Type} (k : Nat) (r : Option Nat)
    (l : List α) (h : RefOK r l.length) :
    RefOK (remapRef k r) (l.eraseIdx k).length := by
  cases r with
  | none => trivial
  | some j =>
    have hj : j < l.length := h
    by_cases h1 : j = k
    · have he : remapRef k (some j) = none := by simp [remapRef, h1]
      rw [he]
      trivial
    · by_cases h2 : k < j
      · have he : remapRef k (some j) = some (j - 1) := by
          simp [remapRef, h1, h2]
        rw [he]
        show j - 1 < (l.eraseIdx k).length
        rw [List.length_eraseIdx, if_pos (by omega)]
        omega
      · have he : remapRef k (some j) = some j := by
          simp [remapRef, h1, h2]
        rw [he]
        show j < (l.eraseIdx k).length
        rw [List.length_eraseIdx]
        by_cases h3 : k < l.length
        · rw [if_pos h3]
          omega
        · rw [if_neg h3]
          omega

/-! ### The channel container (lib/channel.hh, `ChannelList`)

`ChannelList` stores the channels of a configuration in a vector of
channel object references; channels are identified by object identity.
Modelled from the spec and the header documentation: `addChannel`
appends when `row < 0` (`If row<0 the channel gets appendet to the
list.`); `indexOf` is QVector index search, -1 when absent.  The bodies
live in the missing channel.cc. -/

/-- Add a channel at `row`; `row < 0` appends
(`ChannelList::addChannel`).  Modelled from the spec. -/
def ChannelList.addChannel (l : List Nat) (c : Nat) (row : Int) : List Nat :=
  if row < 0 then l ++ [c] else l.insertIdx row.toNat c

/-- Number of channels in the list (`ChannelList::count`). -/
def ChannelList.count (l : List Nat) : Int := l.length

/-- The channel at an index (`ChannelList::channel`). -/
def ChannelList.channelAt (l : List Nat) (idx : Nat) : Option Nat := l[idx]?

/-- The index of a channel (`ChannelList::indexOf`, QVector semantics:
first occurrence, -1 when absent). -/
def ChannelList.indexOf : List Nat → Nat → Int
  | [], _ => -1
  | x :: xs, c =>
    if x = c then 0
    else
      let r := ChannelList.indexOf xs c
      if r < 0 then -1 else r + 1

theorem channelList_indexOf_append_self (l : List Nat) (c : Nat) (h : c ∉ l) :
    ChannelList.indexOf (l ++ [c]) c = l.length := by
  induction l with
  | nil => simp [ChannelList.indexOf]
  | cons x xs ih =>
    have hx : ¬(x = c) := fun hh => h (hh ▸ List.mem_cons_self x xs)
    have hxs : c ∉ xs := fun hh => h (List.mem_cons_of_mem x hh)
    have hrec : ChannelList.indexOf ((x :: xs) ++ [c]) c
        = if x = c then 0
          else if ChannelList.indexOf (xs ++ [c]) c < 0 then -1
          else ChannelList.indexOf (xs ++ [c]) c + 1 := rfl
    rw [hrec, if_neg hx, ih hxs]
    have hge : ¬((xs.length : Int) < 0) := by omega
    rw [if_neg hge]
    simp only [List.length_cons]
    push_cast
    omega

/-! ### Properties of the DMR-ID map construction -/

theorem idIndexPairs_mem (ts : List Contact) (i : Nat) (p : Nat × Nat)
    (hp : p ∈ idIndexPairs ts i) :
    (∃ t ∈ ts, p.1 = t.id) ∧ i ≤ p.2 ∧ p.2 < i + ts.length := by
  induction ts generalizing i with
  | nil => cases hp
  | cons t ts ih =>
    rw [idIndexPairs] at hp
    rcases List.mem_cons.mp hp with h1 | h1
    · subst h1
      exact ⟨⟨t, List.mem_cons_self t ts, rfl⟩, Nat.le_refl i, by simp⟩
    · obtain ⟨⟨u, hu, hid⟩, hlo, hhi⟩ := ih (i + 1) h1
      refine ⟨⟨u, List.mem_cons_of_mem t hu, hid⟩, by omega, ?_⟩
      simp only [List.length_cons]
      omega

/-- The property the spec asserts of the DMR-ID map after an encode of
`n` contacts: active entries (low 32 bits = ID) strictly ascending,
every slot from position `n` on holding the 64-bit sentinel, and no
active slot holding the sentinel (so the sentinel region starts exactly
at `n`). -/
def ContactMapClaimOK (m : List Nat) (n : Nat) : Prop :=
  List.Sorted (fun a b => a < b) ((m.take n).map (fun w => w % 4294967296)) ∧
  (∀ j, n ≤ j → j < m.length → m.getD j 0 = sentinel64) ∧
  (∀ j, j < n → m.getD j 0 ≠ sentinel64)

theorem contactIdMapOf_claimOK (ts : List Contact)
    (hlen : ts.length ≤ numContactSlots)
    (hid : ∀ t ∈ ts, t.id < 4294967296)
    (hnodup : (ts.map Contact.id).Nodup) :
    ContactMapClaimOK (contactIdMapOf ts) ts.length := by
  have hperm := List.perm_insertionSort contactMapLE (idIndexPairs ts 0)
  have hslen : (List.insertionSort contactMapLE (idIndexPairs ts 0)).length
      = ts.length := by
    rw [hperm.length_eq, idIndexPairs_length]
  have hwlen : ((List.insertionSort contactMapLE (idIndexPairs ts 0)).map
      contactMapWord).length = ts.length := by
    rw [List.length_map, hslen]
  have hbound : ∀ p ∈ List.insertionSort contactMapLE (idIndexPairs ts 0),
      p.1 < 4294967296 ∧ p.2 < numContactSlots := by
    intro p hp
    have hp2 : p ∈ idIndexPairs ts 0 := hperm.mem_iff.mp hp
    obtain ⟨⟨t, ht, hpt⟩, _, hhi⟩ := idIndexPairs_mem ts 0 p hp2
    refine ⟨hpt ▸ hid t ht, ?_⟩
    simp only [Nat.zero_add] at hhi
    omega
  have htake : (contactIdMapOf ts).take ts.length
      = (List.insertionSort contactMapLE (idIndexPairs ts 0)).map
        contactMapWord := by
    rw [contactIdMapOf, List.take_left' hwlen]
  have hmlen : (contactIdMapOf ts).length = numContactSlots :=
    contactIdMapOf_length ts hlen
  refine ⟨?_, ?_, ?_⟩
  · rw [htake, List.map_map]
    have hmap : (List.insertionSort contactMapLE (idIndexPairs ts 0)).map
        ((fun w => w % 4294967296) ∘ contactMapWord)
        = (List.insertionSort contactMapLE (idIndexPairs ts 0)).map Prod.fst := by
      refine List.map_congr_left (fun p hp => ?_)
      show contactMapWord p % 4294967296 = p.1
      rw [contactMapWord, Nat.add_mul_mod_self_left,
        Nat.mod_eq_of_lt (hbound p hp).1]
    rw [hmap]
    have hle : List.Pairwise contactMapLE
        (List.insertionSort contactMapLE (idIndexPairs ts 0)) :=
      List.sorted_insertionSort contactMapLE (idIndexPairs ts 0)
    have hnd : (List.map Prod.fst
        (List.insertionSort contactMapLE (idIndexPairs ts 0))).Nodup := by
      have hpermfst := hperm.map Prod.fst
      rw [idIndexPairs_map_fst] at hpermfst
      exact (hpermfst.nodup_iff).mpr hnodup
    have hne : List.Pairwise (fun (a b : Nat × Nat) => a.1 ≠ b.1)
        (List.insertionSort contactMapLE (idIndexPairs ts 0)) :=
      (List.pairwise_map).mp hnd
    refine (List.pairwise_map).mpr ?_
    refine (hle.and hne).imp ?_
    intro a b hab
    exact Nat.lt_of_le_of_ne hab.1 hab.2
  · intro j hj1 hj2
    rw [hmlen] at hj2
    rw [contactIdMapOf, List.getD_eq_getElem?_getD,
      List.getElem?_append_right (by omega : ((List.insertionSort contactMapLE
        (idIndexPairs ts 0)).map contactMapWord).length ≤ j)]
    rw [hwlen, List.getElem?_replicate, if_pos (by omega)]
    rfl
  · intro j hj
    have hjw : j < ((List.insertionSort contactMapLE (idIndexPairs ts 0)).map
        contactMapWord).length := by omega
    rw [contactIdMapOf, List.getD_eq_getElem?_getD,
      List.getElem?_append_left hjw, List.getElem?_eq_getElem hjw]
    simp only [Option.getD_some]
    rw [List.getElem_map]
    have hmem := List.getElem_mem (l := List.insertionSort contactMapLE
      (idIndexPairs ts 0)) (by rw [List.length_map] at hjw; exact hjw)
    have hb := hbound _ hmem
    rw [contactMapWord, sentinel64]
    simp only [numContactSlots] at hb
    omega

/-! ### Concrete configurations used by witnesses -/

/-- The default flags value. -/
def defaultFlags : Flags := { settingsExtension := false }

/-- The empty configuration graph. -/
def emptyConfig : Config :=
  { channels := []
    contacts := []
    zones := []
    groupLists := []
    scanLists := []
    gpsSystems := []
    roamingChannels := []
    roamingZones := [] }

/-- A small configuration exercising one digital channel with every
reference set, one analog channel, and one entity of every other
kind. -/
def sampleConfig : Config :=
  { channels :=
      [{ name := ['R', 'E', 'P', '1']
         rxFreq := 43880000
         txFreq := 43080000
         power := Power.high
         txTimeout := 60
         rxOnly := false
         scanListIndex := some 0
         kind := ChannelKind.digital
           { admitCrit := DigitalAdmit.admitColorCode
             colorCode := 1
             timeSlot2 := false
             rxGroupIndex := some 0
             txContactIndex := some 0
             gpsIndex := some 0 } },
       { name := ['F', 'M']
         rxFreq := 14550000
         txFreq := 14550000
         power := Power.low
         txTimeout := 0
         rxOnly := true
         scanListIndex := none
         kind := ChannelKind.analog 5 }]
    contacts := [{ name := ['W', 'W'], id := 91, isGroup := true }]
    zones := [{ name := ['Z', '1'], members := [0, 1] }]
    groupLists := [{ name := ['G', 'L'], members := [0] }]
    scanLists := [{ name := ['S', 'L'], members := [0, 1] }]
    gpsSystems :=
      [{ channel := GPSChannel.vfoA, contactId := 91 },
       { channel := GPSChannel.fixed 0, contactId := 91 }]
    roamingChannels :=
      [{ name := ['R', 'C'], rxFreq := 43960000, txFreq := 43360000,
         colorCode := 1, timeSlot2 := true }]
    roamingZones := [{ name := ['R', 'Z'], members := [0] }] }

/-- A configuration with two contacts sharing the DMR ID 5. -/
def dupContactsConfig : Config :=
  { channels := []
    contacts :=
      [{ name := ['A'], id := 5, isGroup := false },
       { name := ['B'], id := 5, isGroup := false }]
    zones := []
    groupLists := []
    scanLists := []
    gpsSystems := []
    roamingChannels := []
    roamingZones := [] }

/-! ### The claims -/

/-- C1: for every configuration graph within the device table
capacities and satisfying the graph invariants of the spec (references
live or unset, names within their fixed-width fields), and every flags
value, decoding the image produced by encoding yields exactly the
original graph (and no warnings).  Frequencies are modelled at the
10 Hz resolution of the binary format, so the sub-precision rounding
the spec enumerates as the only lossy field is the identity here and no
field is excluded from the equality. -/
theorem claim_C1_round_trip (g : Config) (f : Flags) (h : g.WF) :
    decode (encode g f) f = Except.ok (g, []) :=
  decode_encode_ok g f h

theorem claim_C1_round_trip_witness :
    sampleConfig.WF ∧
    decode (encode sampleConfig defaultFlags) defaultFlags
      = Except.ok (sampleConfig, []) :=
  ⟨by decide, claim_C1_round_trip sampleConfig defaultFlags (by decide)⟩

set_option maxRecDepth 8000 in
/-- C5: a channel bank `b` (0-based; the documentation's "bank N+1") is
allocated in the output image iff some populated channel index lies in
`[b*128, (b+1)*128)` intersected with the 4000-entry channel table; the
allocation is per whole bank, the encode pass allocates exactly the
banks of the populated channel indices, and the last bank (index 31)
covers only the remaining 32 channels of the 4000-channel table. -/
theorem claim_C5_bank_allocation :
    (∀ (populated : Nat → Bool) (b : Nat),
      b ∈ allocateChannels populated ↔
        ∃ i, channelBankSize * b ≤ i ∧ i < channelBankSize * (b + 1) ∧
          i < numChannelSlots ∧ populated i = true) ∧
    (∀ (g : Config) (f : Flags),
      (encode g f).allocatedBanks
        = allocateChannels (fun i => decide (i < g.channels.length))) ∧
    numChannelSlots - channelBankSize * 31 = 32 := by
  refine ⟨?_, ?_, ?_⟩
  case refine_2 =>
    intro g f
    rfl
  case refine_3 =>
    simp only [numChannelSlots, channelBankSize]
  intro populated b
  rw [allocateChannels]
  rw [List.mem_filterMap]
  constructor
  · rintro ⟨i, hi, hif⟩
    have hir : i < numChannelSlots := by
      have := List.mem_range.mp hi
      simpa using this
    by_cases hp : populated i
    · rw [if_pos hp] at hif
      have hb : i / channelBankSize = b := Option.some.inj hif
      refine ⟨i, ?_, ?_, hir, hp⟩
      · simp only [channelBankSize] at hb
        simp only [channelBankSize]
        omega
      · simp only [channelBankSize] at hb
        simp only [channelBankSize]
        omega
    · rw [if_neg hp] at hif
      cases hif
  · rintro ⟨i, h1, h2, h3, h4⟩
    refine ⟨i, List.mem_range.mpr (by simpa using h3), ?_⟩
    rw [if_pos h4]
    refine congrArg some ?_
    simp only [channelBankSize] at h1 h2
    simp only [channelBankSize]
    omega

/-- C7: the 16-bit channel field of each of the 8 GPS/APRS systems is
special-cased on the pseudo-channel sentinels: 4000 means VFO A, 4001
VFO B, 4002 the current channel, and those values are returned directly
at link time without consulting the channel table (the result is the
same for every context); only values below 4000 are resolved through
the channel table; encoding writes an actual channel's table index or
the pseudo-channel sentinel back into the field, and the encoded systems
block always carries exactly 8 slots. -/
theorem claim_C7_gps_pseudo_channels :
    (encodeGPSChannelIndex GPSChannel.vfoA = 4000 ∧
     encodeGPSChannelIndex GPSChannel.vfoB = 4001 ∧
     encodeGPSChannelIndex GPSChannel.current = 4002 ∧
     ∀ i, encodeGPSChannelIndex (GPSChannel.fixed i) = i) ∧
    (∀ populated : List Nat,
      linkGPSChannelIndex populated 4000 = (some GPSChannel.vfoA, []) ∧
      linkGPSChannelIndex populated 4001 = (some GPSChannel.vfoB, []) ∧
      linkGPSChannelIndex populated 4002 = (some GPSChannel.current, [])) ∧
    (∀ (populated : List Nat) (v : Nat), v < 4000 →
      linkGPSChannelIndex populated v
        = match resolveIndex populated v with
          | some p => (some (GPSChannel.fixed p), [])
          | none => (none, [Warning.unresolvedReference])) ∧
    (∀ (g : Config) (f : Flags),
      (encode g f).gpsChannels
        = g.gpsSystems.map (fun s => encodeGPSChannelIndex s.channel)
          ++ List.replicate (numGPSSystems - g.gpsSystems.length) sentinel16) ∧
    (∀ (g : Config) (f : Flags), g.gpsSystems.length ≤ numGPSSystems →
      (encode g f).gpsChannels.length = numGPSSystems) := by
  refine ⟨⟨rfl, rfl, rfl, fun i => rfl⟩, fun populated => ⟨rfl, rfl, rfl⟩,
    ?_, fun g f => rfl, ?_⟩
  · intro populated v hv
    have hA : ¬(v = pseudoVFOA) := by simp only [pseudoVFOA]; omega
    have hB : ¬(v = pseudoVFOB) := by simp only [pseudoVFOB]; omega
    have hC : ¬(v = pseudoCurrent) := by simp only [pseudoCurrent]; omega
    rw [linkGPSChannelIndex, if_neg hA, if_neg hB, if_neg hC, if_pos hv]
  · intro g f h
    show (g.gpsSystems.map (fun s => encodeGPSChannelIndex s.channel)
      ++ List.replicate (numGPSSystems - g.gpsSystems.length) sentinel16).length
      = numGPSSystems
    simp only [List.length_append, List.length_map, List.length_replicate]
    omega

theorem claim_C7_gps_pseudo_channels_witness :
    linkGPSChannelIndex [0, 1, 2] 2
      = (some (GPSChannel.fixed 2), []) ∧
    (encode sampleConfig defaultFlags).gpsChannels.length = numGPSSystems := by
  constructor
  · rw [claim_C7_gps_pseudo_channels.2.2.1 [0, 1, 2] 2 (by decide)]
    decide
  · exact claim_C7_gps_pseudo_channels.2.2.2.2 sampleConfig defaultFlags
      (by decide)

/-- C8: encoding is deterministic: two encode runs on equal
configurations and equal flags produce byte-for-byte identical images
(encode is a function of its two arguments alone), and
reserved/unknown sub-fields and regions are written with fixed default
values: the channel-bank shadow region is a constant fill, the reserved
sub-fields of every written channel and contact record are 0, and the
flags-gated settings-extension block has constant default content. -/
theorem claim_C8_encode_deterministic :
    (∀ (g1 g2 : Config) (f1 f2 : Flags), g1 = g2 → f1 = f2 →
      encode g1 f1 = encode g2 f2) ∧
    (∀ (g : Config) (f : Flags),
      (encode g f).channelShadow = List.replicate 64 0) ∧
    (∀ (g : Config) (f : Flags) (r : ChannelRecord),
      some r ∈ (encode g f).channelSlots → r.reserved = 0) ∧
    (∀ (g : Config) (f : Flags) (r : ContactRecord),
      some r ∈ (encode g f).contactSlots → r.reserved = 0) ∧
    (∀ (g : Config) (f : Flags), f.settingsExtension = true →
      (encode g f).settingsExt = some (List.replicate 256 0)) := by
  refine ⟨?_, fun g f => rfl, ?_, ?_, ?_⟩
  · intro g1 g2 f1 f2 h1 h2
    rw [h1, h2]
  · intro g f r hmem
    have hmem2 : some r ∈ tableEncode numChannelSlots fromChannelObj
        g.channels := hmem
    rw [tableEncode] at hmem2
    rcases List.mem_append.mp hmem2 with h1 | h1
    · obtain ⟨c, _, hc⟩ := List.mem_map.mp h1
      have : r = fromChannelObj c := (Option.some.inj hc).symm
      rw [this]
      rfl
    · have := List.eq_of_mem_replicate h1
      cases this
  · intro g f r hmem
    have hmem2 : some r ∈ tableEncode numContactSlots fromContactObj
        g.contacts := hmem
    rw [tableEncode] at hmem2
    rcases List.mem_append.mp hmem2 with h1 | h1
    · obtain ⟨c, _, hc⟩ := List.mem_map.mp h1
      have : r = fromContactObj c := (Option.some.inj hc).symm
      rw [this]
      rfl
    · have := List.eq_of_mem_replicate h1
      cases this
  · intro g f h
    show (if f.settingsExtension then some (List.replicate 256 0) else none)
      = some (List.replicate 256 0)
    rw [if_pos h]

theorem claim_C8_encode_deterministic_witness :
    encode sampleConfig defaultFlags = encode sampleConfig defaultFlags ∧
    (encode sampleConfig { settingsExtension := true }).settingsExt
      = some (List.replicate 256 0) :=
  ⟨claim_C8_encode_deterministic.1 sampleConfig sampleConfig defaultFlags
    defaultFlags rfl rfl,
   claim_C8_encode_deterministic.2.2.2.2 sampleConfig
    { settingsExtension := true } rfl⟩

theorem claim_C5_bank_allocation_witness :
    31 ∈ allocateChannels (fun i => decide (i < numChannelSlots)) ↔
      ∃ i, channelBankSize * 31 ≤ i ∧ i < channelBankSize * (31 + 1) ∧
        i < numChannelSlots ∧ decide (i < numChannelSlots) = true :=
  claim_C5_bank_allocation.1 (fun i => decide (i < numChannelSlots)) 31

/-- C4: an index field holding its kind's unset sentinel always decodes
to no reference and is never resolved to an entity: the sentinel of a
reference field links to the unset reference in every context; a
sentinel-filled zone channel list region decodes to the empty member
list; member-list decoding never yields the sentinel and keeps every
non-sentinel entry, in particular a valid index 0; a cleared roaming
zone member slot reads as absent while a slot holding index 0 reads as
present; and a valid index 0 still resolves normally at link time. -/
theorem claim_C4_sentinel_safety :
    (∀ (populated : List Nat) (sent : Nat),
      (linkRef populated sent sent).1 = none) ∧
    decodeZoneListBytes (List.replicate 500 0xff) = [] ∧
    (∀ (sent : Nat) (slots : List Nat), sent ∉ decodeMembers sent slots) ∧
    (∀ (sent : Nat) (slots : List Nat) (v : Nat), v ∈ slots → v ≠ sent →
      v ∈ decodeMembers sent slots) ∧
    (∀ (r : RoamingZoneRecord) (n : Nat),
      roamingZoneHasMember (roamingZoneClearMember r n) n = false) ∧
    (∀ (r : RoamingZoneRecord) (n : Nat), roamingZoneMember r n = 0 →
      roamingZoneHasMember r n = true) ∧
    (∀ (n sent : Nat), 0 < n → sent ≠ 0 →
      (linkRef (List.range n) sent 0).1 = some 0) := by
  refine ⟨?_, ?_, ?_, ?_, ?_, ?_, ?_⟩
  · intro populated sent
    simp [linkRef]
  · show decodeZoneListBytes (List.replicate (2 * 250) 0xff) = []
    rw [decodeZoneListBytes, chunkPairs_replicate_ff, List.map_replicate]
    have h : ofLE16 (0xff, 0xff) = sentinel16 := rfl
    rw [h, filter_ne_replicate_sent]
  · intro sent slots hmem
    have := List.of_mem_filter hmem
    simp at this
  · intro sent slots v hv hne
    refine List.mem_filter.mpr ⟨hv, ?_⟩
    simpa using hne
  · intro r n
    rw [roamingZoneHasMember, roamingZoneClearMember]
    simp only [List.getD_eq_getElem?_getD]
    by_cases h : n < r.members.length
    · rw [List.getElem?_set_self (by simpa using h)]
      simp
    · rw [List.getElem?_eq_none (by simp; omega)]
      simp
  · intro r n h
    have h2 : r.members.getD n sentinel8 = 0 := h
    rw [roamingZoneHasMember, h2]
    decide
  · intro n sent h1 h2
    rw [linkRef, if_neg (fun hh => h2 hh.symm), resolveIndex_range,
      if_pos h1]

theorem claim_C4_sentinel_safety_witness :
    (linkRef [0, 1, 2] 0xffff 0xffff).1 = none ∧
    (linkRef (List.range 3) 0xffff 0).1 = some 0 :=
  ⟨claim_C4_sentinel_safety.1 [0, 1, 2] 0xffff,
   claim_C4_sentinel_safety.2.2.2.2.2.2 3 0xffff (by decide) (by decide)⟩

/-- C6: a dangling index (a required reference whose index has no
populated slot in the referenced table) makes the link step fail for
that entity: the reference is left unset and an `UnresolvedReference`
warning is surfaced, while decode as a whole still succeeds on every
well-sized image — a dangling index is never fatal. -/
theorem claim_C6_dangling_reference :
    (∀ (populated : List Nat) (sent raw : Nat), raw ≠ sent →
      raw ∉ populated →
      linkRef populated sent raw = (none, [Warning.unresolvedReference])) ∧
    (∀ (ctx : Context) (r : ChannelRecord), r.isDigital = true →
      r.contactIndex ≠ sentinel16 → r.contactIndex ∉ ctx.contactIdx →
      (∃ d, (linkChannelObj ctx r).1.kind = ChannelKind.digital d ∧
        d.txContactIndex = none) ∧
      (linkChannelObj ctx r).2.1 = false ∧
      Warning.unresolvedReference ∈ (linkChannelObj ctx r).2.2) ∧
    (∀ (img : Image) (f : Flags), img.wellSized →
      ∃ res, decode img f = Except.ok res) := by
  refine ⟨linkRef_dangling, ?_, ?_⟩
  · intro ctx r hdig hne hdangling
    have hct : linkRef ctx.contactIdx sentinel16 r.contactIndex
        = (none, [Warning.unresolvedReference]) :=
      linkRef_dangling ctx.contactIdx sentinel16 r.contactIndex hne hdangling
    simp only [linkChannelObj, hdig, if_pos, hct]
    refine ⟨⟨_, rfl, rfl⟩, ?_, ?_⟩
    · rw [List.isEmpty_eq_false]
      simp
    · simp
  · intro img f h
    refine ⟨decodeBody img, ?_⟩
    rw [decode, if_pos h]

theorem claim_C6_dangling_reference_witness :
    linkRef [0, 1] 255 7 = (none, [Warning.unresolvedReference]) ∧
    (∃ res, decode (encode emptyConfig defaultFlags) defaultFlags
      = Except.ok res) :=
  ⟨claim_C6_dangling_reference.1 [0, 1] 255 7 (by decide) (by decide),
   claim_C6_dangling_reference.2.2 (encode emptyConfig defaultFlags)
    defaultFlags (encode_wellSized emptyConfig defaultFlags (by decide))⟩

/-- C10 counterexample: adding a channel that is already in the list
(the same object pointer twice) appends it, and `indexOf` then returns
the first occurrence, not `count()-1`: the claim fails as stated for a
list already containing the channel. -/
theorem claim_C10_counterexample :
    ChannelList.addChannel [7] 7 (-1) = [7, 7] ∧
    ChannelList.indexOf (ChannelList.addChannel [7] 7 (-1)) 7
      ≠ ChannelList.count (ChannelList.addChannel [7] 7 (-1)) - 1 := by
  decide

/-- C10 (amended): for every channel list and channel, `addChannel` with
`row < 0` appends: the count grows by exactly one, the channel at the
new last index is the added one, all previously stored channels keep
their indices, and — provided the channel was not already in the list —
`indexOf` returns the new last index `count()-1`. -/
theorem claim_C10_addChannel_append (l : List Nat) (c : Nat) (row : Int)
    (hrow : row < 0) :
    (ChannelList.addChannel l c row).length = l.length + 1 ∧
    ChannelList.channelAt (ChannelList.addChannel l c row) l.length = some c ∧
    (∀ i, i < l.length →
      ChannelList.channelAt (ChannelList.addChannel l c row) i
        = ChannelList.channelAt l i) ∧
    (c ∉ l → ChannelList.indexOf (ChannelList.addChannel l c row) c
      = ChannelList.count (ChannelList.addChannel l c row) - 1) := by
  have happ : ChannelList.addChannel l c row = l ++ [c] := by
    rw [ChannelList.addChannel, if_pos hrow]
  refine ⟨?_, ?_, ?_, ?_⟩
  · rw [happ]
    simp
  · rw [happ, ChannelList.channelAt,
      List.getElem?_append_right (Nat.le_refl l.length)]
    simp
  · intro i hi
    rw [happ, ChannelList.channelAt, ChannelList.channelAt,
      List.getElem?_append_left hi]
  · intro hc
    rw [happ, channelList_indexOf_append_self l c hc, ChannelList.count]
    simp

theorem claim_C10_addChannel_append_witness :
    ((-1 : Int) < 0) ∧
    ((ChannelList.addChannel [3, 4] 5 (-1)).length = [3, 4].length + 1 ∧
     ChannelList.channelAt (ChannelList.addChannel [3, 4] 5 (-1))
       [3, 4].length = some 5 ∧
     (∀ i, i < [3, 4].length →
       ChannelList.channelAt (ChannelList.addChannel [3, 4] 5 (-1)) i
         = ChannelList.channelAt [3, 4] i) ∧
     (5 ∉ [3, 4] → ChannelList.indexOf (ChannelList.addChannel [3, 4] 5 (-1)) 5
       = ChannelList.count (ChannelList.addChannel [3, 4] 5 (-1)) - 1)) :=
  ⟨by decide, claim_C10_addChannel_append [3, 4] 5 (-1) (by decide)⟩

/-! ### Deletion preserves the reference invariant -/

theorem deleteScanList_refsOK (g : Config) (k : Nat) (h : g.ChannelRefsOK) :
    (g.deleteScanList k).ChannelRefsOK := by
  intro c2 hc2
  obtain ⟨c, hc, rfl⟩ := List.mem_map.mp hc2
  obtain ⟨hsl, hkind⟩ := h c hc
  exact ⟨remapRef_eraseIdx_refOK k c.scanListIndex g.scanLists hsl, hkind⟩

theorem deleteGroupList_refsOK (g : Config) (k : Nat) (h : g.ChannelRefsOK) :
    (g.deleteGroupList k).ChannelRefsOK := by
  intro c2 hc2
  obtain ⟨c, hc, rfl⟩ := List.mem_map.mp hc2
  obtain ⟨hsl, hkind⟩ := h c hc
  refine ⟨hsl, ?_⟩
  cases hck : c.kind with
  | analog sq =>
    have hmk : (mapDigital (fun d =>
        { d with rxGroupIndex := remapRef k d.rxGroupIndex }) c).kind
        = ChannelKind.analog sq := by
      simp [mapDigital, hck]
    rw [hmk]
    trivial
  | digital d =>
    have hmk : (mapDigital (fun d =>
        { d with rxGroupIndex := remapRef k d.rxGroupIndex }) c).kind
        = ChannelKind.digital { d with rxGroupIndex := remapRef k d.rxGroupIndex } := by
      simp [mapDigital, hck]
    rw [hck] at hkind
    obtain ⟨hgl, hct, hgp⟩ := hkind
    rw [hmk]
    exact ⟨remapRef_eraseIdx_refOK k d.rxGroupIndex g.groupLists hgl, hct, hgp⟩

theorem deleteContact_refsOK (g : Config) (k : Nat) (h : g.ChannelRefsOK) :
    (g.deleteContact k).ChannelRefsOK := by
  intro c2 hc2
  obtain ⟨c, hc, rfl⟩ := List.mem_map.mp hc2
  obtain ⟨hsl, hkind⟩ := h c hc
  refine ⟨hsl, ?_⟩
  cases hck : c.kind with
  | analog sq =>
    have hmk : (mapDigital (fun d =>
        { d with txContactIndex := remapRef k d.txContactIndex }) c).kind
        = ChannelKind.analog sq := by
      simp [mapDigital, hck]
    rw [hmk]
    trivial
  | digital d =>
    have hmk : (mapDigital (fun d =>
        { d with txContactIndex := remapRef k d.txContactIndex }) c).kind
        = ChannelKind.digital { d with txContactIndex := remapRef k d.txContactIndex } := by
      simp [mapDigital, hck]
    rw [hck] at hkind
    obtain ⟨hgl, hct, hgp⟩ := hkind
    rw [hmk]
    refine ⟨?_, remapRef_eraseIdx_refOK k d.txContactIndex g.contacts hct, hgp⟩
    show RefOK d.rxGroupIndex (g.groupLists.map _).length
    rw [List.length_map]
    exact hgl

theorem deleteGPSSystem_refsOK (g : Config) (k : Nat) (h : g.ChannelRefsOK) :
    (g.deleteGPSSystem k).ChannelRefsOK := by
  intro c2 hc2
  obtain ⟨c, hc, rfl⟩ := List.mem_map.mp hc2
  obtain ⟨hsl, hkind⟩ := h c hc
  refine ⟨hsl, ?_⟩
  cases hck : c.kind with
  | analog sq =>
    have hmk : (mapDigital (fun d =>
        { d with gpsIndex := remapRef k d.gpsIndex }) c).kind
        = ChannelKind.analog sq := by
      simp [mapDigital, hck]
    rw [hmk]
    trivial
  | digital d =>
    have hmk : (mapDigital (fun d =>
        { d with gpsIndex := remapRef k d.gpsIndex }) c).kind
        = ChannelKind.digital { d with gpsIndex := remapRef k d.gpsIndex } := by
      simp [mapDigital, hck]
    rw [hck] at hkind
    obtain ⟨hgl, hct, hgp⟩ := hkind
    rw [hmk]
    exact ⟨hgl, hct, remapRef_eraseIdx_refOK k d.gpsIndex g.gpsSystems hgp⟩

/-- C9: after a successful link pass the channel reference invariant
(every reference a channel holds — scan list, and for a digital channel
RX group list, TX contact, GPS system — resolves to a live entity or is
explicitly unset) is preserved by deleting an entity of any referenced
kind, and deleting a referenced scan list, group list, contact or GPS
system resets the referencing channel's pointer to unset rather than
leaving it dangling. -/
theorem claim_C9_deletion_resets_references :
    (∀ (g : Config) (k : Nat), g.ChannelRefsOK →
      (g.deleteScanList k).ChannelRefsOK ∧
      (g.deleteGroupList k).ChannelRefsOK ∧
      (g.deleteContact k).ChannelRefsOK ∧
      (g.deleteGPSSystem k).ChannelRefsOK) ∧
    (∀ (g : Config) (k : Nat) (c : Channel), c ∈ g.channels →
      c.scanListIndex = some k →
      { c with scanListIndex := none } ∈ (g.deleteScanList k).channels) ∧
    (∀ (g : Config) (k : Nat) (c : Channel) (d : DigitalData),
      c ∈ g.channels → c.kind = ChannelKind.digital d →
      d.rxGroupIndex = some k →
      ∃ c2 ∈ (g.deleteGroupList k).channels,
        c2.kind = ChannelKind.digital { d with rxGroupIndex := none }) ∧
    (∀ (g : Config) (k : Nat) (c : Channel) (d : DigitalData),
      c ∈ g.channels → c.kind = ChannelKind.digital d →
      d.txContactIndex = some k →
      ∃ c2 ∈ (g.deleteContact k).channels,
        c2.kind = ChannelKind.digital { d with txContactIndex := none }) ∧
    (∀ (g : Config) (k : Nat) (c : Channel) (d : DigitalData),
      c ∈ g.channels → c.kind = ChannelKind.digital d →
      d.gpsIndex = some k →
      ∃ c2 ∈ (g.deleteGPSSystem k).channels,
        c2.kind = ChannelKind.digital { d with gpsIndex := none }) := by
  refine ⟨?_, ?_, ?_, ?_, ?_⟩
  · intro g k h
    exact ⟨deleteScanList_refsOK g k h, deleteGroupList_refsOK g k h,
      deleteContact_refsOK g k h, deleteGPSSystem_refsOK g k h⟩
  · intro g k c hc hs
    have ht : (fun c => { c with scanListIndex := remapRef k c.scanListIndex }) c
        = { c with scanListIndex := none } := by
      show ({ c with scanListIndex := remapRef k c.scanListIndex } : Channel)
        = { c with scanListIndex := none }
      rw [hs]
      simp [remapRef]
    exact ht ▸ List.mem_map_of_mem _ hc
  · intro g k c d hc hck hr
    refine ⟨mapDigital (fun d2 =>
      { d2 with rxGroupIndex := remapRef k d2.rxGroupIndex }) c,
      List.mem_map_of_mem _ hc, ?_⟩
    simp [mapDigital, hck, hr, remapRef]
  · intro g k c d hc hck hr
    refine ⟨mapDigital (fun d2 =>
      { d2 with txContactIndex := remapRef k d2.txContactIndex }) c,
      List.mem_map_of_mem _ hc, ?_⟩
    simp [mapDigital, hck, hr, remapRef]
  · intro g k c d hc hck hr
    refine ⟨mapDigital (fun d2 =>
      { d2 with gpsIndex := remapRef k d2.gpsIndex }) c,
      List.mem_map_of_mem _ hc, ?_⟩
    simp [mapDigital, hck, hr, remapRef]

theorem claim_C9_deletion_resets_references_witness :
    sampleConfig.ChannelRefsOK ∧
    ((sampleConfig.deleteScanList 0).ChannelRefsOK ∧
     (sampleConfig.deleteGroupList 0).ChannelRefsOK ∧
     (sampleConfig.deleteContact 0).ChannelRefsOK ∧
     (sampleConfig.deleteGPSSystem 0).ChannelRefsOK) :=
  ⟨by decide,
   claim_C9_deletion_resets_references.1 sampleConfig 0 (by decide)⟩

/-- Normal-polarity bitmap regions report exactly the populated slots. -/
theorem presenceIsSet_normalRegion (bb pb n i : Nat) (hi : i < 8 * bb) :
    presenceIsSet false (bitmapRegion bb pb (fun j => decide (j < n))) i
      = decide (i < n) := by
  rw [presenceIsSet, bitmapRegion_testBit _ _ _ _ hi]
  cases h : decide (i < n)
  · rfl
  · rfl

/-- C2 counterexample: after encoding a configuration with no contacts,
the contact bitmap region is not all 0xFF as the claim states: the
0x500-byte region is `default 0xff, 0x00 padded`, so the 30 bytes after
its 1250 bit-carrying bytes hold 0x00. -/
theorem claim_C2_counterexample :
    ¬ (∀ b ∈ (encode emptyConfig defaultFlags).contactBitmap, b = 0xff) := by
  intro h
  have hmem : (0 : Nat) ∈ (encode emptyConfig defaultFlags).contactBitmap := by
    show (0 : Nat) ∈ bitmapRegion contactBitmapBitBytes contactBitmapPadBytes _
    refine List.mem_append.mpr (Or.inr ?_)
    rw [List.mem_replicate]
    exact ⟨by decide, rfl⟩
  have := h 0 hmem
  exact absurd this (by decide)

/-- C2 (amended): presence bitmaps written by encode apply the per-kind
polarity — the contact bitmap is inverted (a stored bit of 1 marks the
slot absent) while the channel, zone, scan list, group list and roaming
bitmaps are normal polarity (1 marks the slot populated).  After
encoding a configuration with no contacts and no channels, the 1250
bit-carrying bytes of the contact bitmap are all 0xFF while its
0x00-padding tail and the whole channel bitmap region are 0x00 (the
claim's "region all 0xFF" holds only up to that documented padding). -/
theorem claim_C2_presence_polarity (g : Config) (f : Flags) :
    (∀ i, i < 10000 → presenceIsSet true ((encode g f).contactBitmap) i
      = decide (i < g.contacts.length)) ∧
    (∀ i, i < 4000 → presenceIsSet false ((encode g f).channelBitmap) i
      = decide (i < g.channels.length)) ∧
    (∀ i, i < 250 → presenceIsSet false ((encode g f).zoneBitmap) i
      = decide (i < g.zones.length)) ∧
    (∀ i, i < 250 → presenceIsSet false ((encode g f).scanListBitmap) i
      = decide (i < g.scanLists.length)) ∧
    (∀ i, i < 250 → presenceIsSet false ((encode g f).groupListBitmap) i
      = decide (i < g.groupLists.length)) ∧
    (∀ i, i < 250 → presenceIsSet false ((encode g f).roamingChannelBitmap) i
      = decide (i < g.roamingChannels.length)) ∧
    (∀ i, i < 64 → presenceIsSet false ((encode g f).roamingZoneBitmap) i
      = decide (i < g.roamingZones.length)) ∧
    (g.contacts = [] →
      (∀ b ∈ (encode g f).contactBitmap.take contactBitmapBitBytes, b = 0xff) ∧
      (∀ b ∈ (encode g f).contactBitmap.drop contactBitmapBitBytes, b = 0)) ∧
    (g.channels = [] → ∀ b ∈ (encode g f).channelBitmap, b = 0) := by
  refine ⟨?_, ?_, ?_, ?_, ?_, ?_, ?_, ?_, ?_⟩
  · intro i hi
    exact presenceIsSet_contactBitmapOf g.contacts.length i hi
  · intro i hi
    exact presenceIsSet_channelBitmapOf g.channels.length i hi
  · intro i hi
    exact presenceIsSet_normalRegion 32 0 g.zones.length i (by omega)
  · intro i hi
    exact presenceIsSet_normalRegion 32 0 g.scanLists.length i (by omega)
  · intro i hi
    exact presenceIsSet_normalRegion 32 0 g.groupLists.length i (by omega)
  · intro i hi
    exact presenceIsSet_normalRegion 32 0 g.roamingChannels.length i (by omega)
  · intro i hi
    exact presenceIsSet_normalRegion 16 0 g.roamingZones.length i (by omega)
  · intro hc
    have hlen : g.contacts.length = 0 := by rw [hc]; rfl
    constructor
    · intro b hb
      have hb2 : b ∈ (bitmapRegion contactBitmapBitBytes contactBitmapPadBytes
          (fun i => !decide (i < g.contacts.length))).take
          contactBitmapBitBytes := hb
      rw [bitmapRegion, List.take_left' (by simp)] at hb2
      obtain ⟨j, _, rfl⟩ := List.mem_map.mp hb2
      have hf : (fun i => !decide (i < g.contacts.length))
          = fun _ => true := by
        funext i
        rw [hlen]
        simp
      rw [hf, bitmapByte_const_true]
    · intro b hb
      have hb2 : b ∈ (bitmapRegion contactBitmapBitBytes contactBitmapPadBytes
          (fun i => !decide (i < g.contacts.length))).drop
          contactBitmapBitBytes := hb
      rw [bitmapRegion, List.drop_left' (by simp)] at hb2
      exact List.eq_of_mem_replicate hb2
  · intro hc b hb
    have hlen : g.channels.length = 0 := by rw [hc]; rfl
    have hb2 : b ∈ bitmapRegion channelBitmapBitBytes channelBitmapPadBytes
        (fun i => decide (i < g.channels.length)) := hb
    rw [bitmapRegion] at hb2
    rcases List.mem_append.mp hb2 with h1 | h1
    · obtain ⟨j, _, rfl⟩ := List.mem_map.mp h1
      have hf : (fun i => decide (i < g.channels.length))
          = fun _ => false := by
        funext i
        rw [hlen]
        simp
      rw [hf, bitmapByte_const_false]
    · exact List.eq_of_mem_replicate h1

theorem claim_C2_presence_polarity_witness :
    emptyConfig.contacts = [] ∧ emptyConfig.channels = [] ∧
    ((∀ b ∈ (encode emptyConfig defaultFlags).contactBitmap.take
        contactBitmapBitBytes, b = 0xff) ∧
     (∀ b ∈ (encode emptyConfig defaultFlags).contactBitmap.drop
        contactBitmapBitBytes, b = 0)) ∧
    (∀ b ∈ (encode emptyConfig defaultFlags).channelBitmap, b = 0) :=
  ⟨rfl, rfl,
   (claim_C2_presence_polarity emptyConfig defaultFlags).2.2.2.2.2.2.2.1 rfl,
   (claim_C2_presence_polarity emptyConfig defaultFlags).2.2.2.2.2.2.2.2 rfl⟩

/-- C3 counterexample: with two contacts sharing DMR ID 5, the encoded
ID map's active entries are not strictly ascending (they are 5, 5), so
the claim fails as stated; strictness needs pairwise-distinct IDs. -/
theorem claim_C3_counterexample :
    ¬ ContactMapClaimOK ((encode dupContactsConfig defaultFlags).contactIdMap)
      dupContactsConfig.contacts.length := by
  intro h
  have h1 := h.1
  have heval : (((encode dupContactsConfig defaultFlags).contactIdMap.take
      dupContactsConfig.contacts.length).map (fun w => w % 4294967296))
      = [5, 5] := rfl
  rw [heval] at h1
  exact absurd h1 (by decide)

/-- C3 (amended): after every encode of a well-formed configuration
whose contact DMR IDs are pairwise distinct, the DMR-ID-to-contact-index
map has its active entries sorted strictly ascending by ID, every slot
from the first inactive one on holds the reserved sentinel
0xffffffffffffffff, and no active slot holds the sentinel — the active
region is a contiguous prefix whose length is implicit in where the
sentinel begins.  (Without the distinctness proviso the order is only
non-strict, as the counterexample shows.) -/
theorem claim_C3_contact_map (g : Config) (f : Flags) (h : g.WF)
    (hnodup : (g.contacts.map Contact.id).Nodup) :
    ContactMapClaimOK ((encode g f).contactIdMap) g.contacts.length := by
  show ContactMapClaimOK (contactIdMapOf g.contacts) g.contacts.length
  exact contactIdMapOf_claimOK g.contacts h.2.1
    (fun t ht => (h.2.2.2.2.2.2.2.2.2.1 t ht).2) hnodup

theorem claim_C3_contact_map_witness :
    sampleConfig.WF ∧ (sampleConfig.contacts.map Contact.id).Nodup ∧
    ContactMapClaimOK ((encode sampleConfig defaultFlags).contactIdMap)
      sampleConfig.contacts.length :=
  ⟨by decide, by decide,
   claim_C3_contact_map sampleConfig defaultFlags (by decide) (by decide)⟩

end D878UV
